import Mathlib

set_option maxRecDepth 8000

/-!
Shallow embedding of the StegaVault steganography backend (`server.js`):
the payload container format, the password-based encryption envelope, the
LSB embedding/extraction codecs for RGBA images and PCM WAV audio, and the
bitstream reader shared by both.

Byte buffers are modelled as `List Nat` (each entry one byte 0..255, as in
a Node `Buffer`; a JS typed-array read out of range yields `undefined`,
which coerces to 0 under bitwise operators, and an out-of-range write is
dropped — `List.getD _ 0` and `List.set` have exactly these semantics).

The two external collaborators used by the core are modelled as explicit
parameters, faithful to their documented contracts:
  * `JsonCodec` stands for `JSON.stringify` / `JSON.parse` applied to the
    container metadata; a concrete executable instance `jsonCodec`
    (a recursive-descent parser/printer for the exact JSON shape
    `JSON.stringify` emits for this metadata) is provided for concrete
    evaluation.
  * `CryptoPrims` stands for Node `crypto` (scrypt key derivation and
    AES-256-GCM); GCM's authentication guarantee enters theorems as a
    hypothesis on `aeadDec`, and a trivial concrete instance `trivPrims`
    is provided to instantiate theorems at concrete inputs.
-/

/-- Errors thrown by the backend: one constructor per throw/error-return
site of `server.js`, carrying the data that the JS code interpolates into
the message string. -/
inductive JsError where
  | noSecretData
  | notEnoughCapacity (needKB haveKB : Nat)
  | notEnoughWavCapacity (needKB haveKB : Nat)
  | notWav
  | missingFmtChunk
  | notPcm
  | unsupportedBitDepth (d : Nat)
  | missingDataChunk
  | outOfCapacity
  | outOfAudioCapacity
  | invalidEncryptedHeader
  | passwordRequired
  | authenticationFailed
  | noValidPayload
  | corruptedMetadata
  | magicMismatch
  | bufferRangeError
  deriving DecidableEq, Repr

/-- `u32(n)`: 4 big-endian bytes of `n >>> 0` (JS coerces to uint32 first). -/
def u32be (n : Nat) : List Nat :=
  [n % 4294967296 / 16777216, n % 4294967296 / 65536 % 256,
   n % 4294967296 / 256 % 256, n % 4294967296 % 256]

/-- `buf.readUInt32BE(0)`: Node throws `ERR_OUT_OF_RANGE` when fewer than
4 bytes are available. -/
def readU32BE (l : List Nat) : Except JsError Nat :=
  if 4 ≤ l.length then
    .ok (l.getD 0 0 * 16777216 + l.getD 1 0 * 65536 + l.getD 2 0 * 256 + l.getD 3 0)
  else .error .bufferRangeError

/-- JS `buf.slice(a, b)`: clamps both indices to the buffer bounds. -/
def listSlice (l : List Nat) (a b : Nat) : List Nat := (l.drop a).take (b - a)

/-- `bitsNeeded(nBytes) = nBytes * 8`. -/
def bitsNeeded (nBytes : Nat) : Nat := nBytes * 8

/-- `Math.ceil(bits / 8 / 1024)` (exact for these integer ranges since the
divisions are by powers of two). -/
def ceilKB (bits : Nat) : Nat := (bits + 8191) / 8192

/-- Bit `i` of the payload bit-stream.  The embed loops walk the payload
bytes in order and each byte most-significant-bit first
(`for b = 7..0: (payload[i] >> b) & 1`), so overall bit `i` is bit
`7 - i % 8` of byte `i / 8`. -/
def payloadBit (payload : List Nat) (i : Nat) : Nat :=
  (payload.getD (i / 8) 0 >>> (7 - i % 8)) &&& 1

/-- `(x & 0xfe) | bit`: the LSB overwrite performed at each carrier sample. -/
def lsbWrite (x b : Nat) : Nat := (x &&& 0xfe) ||| b

/-- The bit-writing loop shared by both codecs, generic in the map `off`
from bit index to carrier byte offset: for each bit index `i < n`, replace
the byte at offset `off i` by `(old & 0xfe) | payloadBit i`. -/
def writeBitsN (off : Nat → Nat) (payload buf : List Nat) (n : Nat) : List Nat :=
  (List.range n).foldl
    (fun acc i => acc.set (off i) (lsbWrite (acc.getD (off i) 0) (payloadBit payload i))) buf

/-- All `8 * payload.length` payload bits written through `off`. -/
def writeBits (off : Nat → Nat) (payload buf : List Nat) : List Nat :=
  writeBitsN off payload buf (bitsNeeded payload.length)

/-- Image codec addressing: bit `i` lives at pixel `⌊i/3⌋`, channel
`i % 3` (0:R 1:G 2:B), RGBA stride 4 — byte offset `4*⌊i/3⌋ + i % 3`. -/
def imgOffset (i : Nat) : Nat := i / 3 * 4 + i % 3

/-- `embedLSB_RGBA(rgbabuf, width, height, payload)`.  Returns the
post-call buffer together with the error (if any): the capacity check
happens before the write loop, so on error the buffer is returned
untouched. -/
def embedLSB_RGBA (rgbabuf : List Nat) (width height : Nat) (payload : List Nat) :
    List Nat × Option JsError :=
  let capacityBits := width * height * 3
  let needBits := bitsNeeded payload.length
  if needBits > capacityBits then
    (rgbabuf, some (.notEnoughCapacity (ceilKB needBits) (ceilKB capacityBits)))
  else
    (writeBits imgOffset payload rgbabuf, none)

/-- Audio codec addressing: one bit per sample, written into the first
(least-significant, little-endian) byte of sample `i` — byte offset
`dataOffset + i * bytesPerSample`. -/
def wavOffset (dataOffset bytesPerSample i : Nat) : Nat := dataOffset + i * bytesPerSample

/-- `embedLSB_WavPCM(buf, payload, dataOffset, dataLength, bitsPerSample)`.
Only ever called with `bitsPerSample ∈ {8, 16}` (validated by
`parseWavHeader` first), for which JS `bitsPerSample / 8` and Nat division
agree.  Same post-state-plus-error convention as `embedLSB_RGBA`. -/
def embedLSB_WavPCM (buf payload : List Nat) (dataOffset dataLength bitsPerSample : Nat) :
    List Nat × Option JsError :=
  let bytesPerSample := bitsPerSample / 8
  let numSamples := dataLength / bytesPerSample
  let capacityBits := numSamples
  let needBits := bitsNeeded payload.length
  if needBits > capacityBits then
    (buf, some (.notEnoughWavCapacity (ceilKB needBits) (ceilKB capacityBits)))
  else
    (writeBits (wavOffset dataOffset bytesPerSample) payload buf, none)

def RIFF_ID : List Nat := [82, 73, 70, 70]

def WAVE_ID : List Nat := [87, 65, 86, 69]

def FMT_ID : List Nat := [102, 109, 116, 32]

def DATA_ID : List Nat := [100, 97, 116, 97]

/-- Node `buf.toString("ascii", off, off+4)` compared against a 4-char
constant.  Node's `"ascii"` decoder masks each byte with `0x7f` (the high
bit is stripped) and clamps the range to the buffer length. -/
def ascii4 (buf : List Nat) (off : Nat) : List Nat :=
  ((buf.drop off).take 4).map (fun c => c &&& 0x7f)

structure FmtInfo where
  audioFormat : Nat
  numChannels : Nat
  sampleRate : Nat
  byteRate : Nat
  blockAlign : Nat
  bitsPerSample : Nat
  deriving DecidableEq, Repr

structure WavInfo where
  dataOffset : Nat
  dataLength : Nat
  fmt : FmtInfo
  deriving DecidableEq, Repr

/-- `buf.readUInt16LE(off)` — throws when `off + 2` exceeds the buffer. -/
def readU16LEx (buf : List Nat) (off : Nat) : Except JsError Nat :=
  if off + 2 ≤ buf.length then .ok (buf.getD off 0 + 256 * buf.getD (off + 1) 0)
  else .error .bufferRangeError

/-- `buf.readUInt32LE(off)` — throws when `off + 4` exceeds the buffer. -/
def readU32LEx (buf : List Nat) (off : Nat) : Except JsError Nat :=
  if off + 4 ≤ buf.length then
    .ok (buf.getD off 0 + 256 * buf.getD (off + 1) 0 +
         65536 * buf.getD (off + 2) 0 + 16777216 * buf.getD (off + 3) 0)
  else .error .bufferRangeError

/-- `buf.readUInt32LE(off)` at an offset already known in range (the chunk
scan loop's guard `offset + 8 <= buf.length` covers its size read). -/
def readU32LEat (buf : List Nat) (off : Nat) : Nat :=
  buf.getD off 0 + 256 * buf.getD (off + 1) 0 +
    65536 * buf.getD (off + 2) 0 + 16777216 * buf.getD (off + 3) 0

/-- The six `fmt ` chunk field reads, in source order. -/
def readFmtFields (buf : List Nat) (start : Nat) : Except JsError FmtInfo :=
  match readU16LEx buf start, readU16LEx buf (start + 2), readU32LEx buf (start + 4),
        readU32LEx buf (start + 8), readU16LEx buf (start + 12), readU16LEx buf (start + 14) with
  | .ok af, .ok nc, .ok sr, .ok br, .ok ba, .ok bps => .ok ⟨af, nc, sr, br, ba, bps⟩
  | _, _, _, _, _, _ => .error .bufferRangeError

/-- The chunk-scanning `while` loop of `parseWavHeader`.  The loop runs
while `offset + 8 ≤ buf.length` and a chunk's declared end stays in
bounds; each iteration advances `offset` by at least 8, so
`buf.length + 1` units of fuel always suffice and the fuel-exhaustion
branch is unreachable from `scanChunks`. -/
def scanChunksF (buf : List Nat) :
    Nat → Nat → Option FmtInfo → Option (Nat × Nat) →
    Except JsError (Option FmtInfo × Option (Nat × Nat))
  | 0, _, fmt, dat => .ok (fmt, dat)
  | fuel + 1, offset, fmt, dat =>
    if offset + 8 ≤ buf.length then
      let size := readU32LEat buf (offset + 4)
      let chStart := offset + 8
      let chEnd := chStart + size
      if chEnd ≤ buf.length then
        if ascii4 buf offset = FMT_ID then
          match readFmtFields buf chStart with
          | .error e => .error e
          | .ok f => scanChunksF buf fuel (chEnd + size % 2) (some f) dat
        else if ascii4 buf offset = DATA_ID then
          scanChunksF buf fuel (chEnd + size % 2) fmt (some (chStart, size))
        else
          scanChunksF buf fuel (chEnd + size % 2) fmt dat
      else .ok (fmt, dat)
    else .ok (fmt, dat)

def scanChunks (buf : List Nat) : Except JsError (Option FmtInfo × Option (Nat × Nat)) :=
  scanChunksF buf (buf.length + 1) 12 none none

/-- `parseWavHeader(buf)`: validates RIFF/WAVE magic, scans chunks, then
checks PCM format, bit depth and presence of a non-empty `data` chunk
(`dataOffset < 0 || dataLength <= 0` with the JS sentinels corresponds to
the `data` chunk being absent or empty). -/
def parseWavHeader (buf : List Nat) : Except JsError WavInfo :=
  if ascii4 buf 0 ≠ RIFF_ID ∨ ascii4 buf 8 ≠ WAVE_ID then .error .notWav
  else
    match scanChunks buf with
    | .error e => .error e
    | .ok (none, _) => .error .missingFmtChunk
    | .ok (some fmt, dat) =>
      if fmt.audioFormat ≠ 1 then .error .notPcm
      else if fmt.bitsPerSample ≠ 8 ∧ fmt.bitsPerSample ≠ 16 then
        .error (.unsupportedBitDepth fmt.bitsPerSample)
      else
        match dat with
        | none => .error .missingDataChunk
        | some (dOff, dLen) =>
          if dLen = 0 then .error .missingDataChunk
          else .ok ⟨dOff, dLen, fmt⟩

def STEG_MAGIC : List Nat := [83, 84, 69, 71, 118, 49]

def ENC_MAGIC : List Nat := [69, 78, 67, 118, 49]

def TEXT_T : List Nat := [116, 101, 120, 116]

def FILE_T : List Nat := [102, 105, 108, 101]

def TEXT_PLAIN : List Nat := [116, 101, 120, 116, 47, 112, 108, 97, 105, 110]

def MESSAGE_TXT : List Nat := [109, 101, 115, 115, 97, 103, 101, 46, 116, 120, 116]

def OCTET_STREAM : List Nat :=
  [97, 112, 112, 108, 105, 99, 97, 116, 105, 111, 110, 47,
   111, 99, 116, 101, 116, 45, 115, 116, 114, 101, 97, 109]

def SECRET_NAME : List Nat := [115, 101, 99, 114, 101, 116]

/-- One entry of the metadata JSON's `items` array:
`{t, name, mime, len}` (strings as byte lists). -/
structure MetaItem where
  t : List Nat
  name : List Nat
  mime : List Nat
  len : Nat
  deriving DecidableEq, Repr

/-- The metadata object `{v, items}`. -/
structure ContainerMeta where
  v : Nat
  items : List MetaItem
  deriving DecidableEq, Repr

/-- Model of `JSON.stringify` / `JSON.parse` applied to the container
metadata (an external Node builtin).  Theorems that need the JSON
round-trip take it as a hypothesis; `jsonCodec` below is a concrete
executable instance for the exact shape `JSON.stringify` emits. -/
structure JsonCodec where
  stringifyMeta : ContainerMeta → List Nat
  parseMeta : List Nat → Option ContainerMeta

/-- An item as assembled by `packPayload` before serialisation. -/
structure PackItem where
  t : List Nat
  name : List Nat
  mime : List Nat
  len : Nat
  data : List Nat
  deriving DecidableEq, Repr

def toMetaItem (it : PackItem) : MetaItem := ⟨it.t, it.name, it.mime, it.len⟩

def concatData (items : List PackItem) : List Nat := (items.map (fun it => it.data)).flatten

/-- The ECMAScript whitespace set recognised by `String.prototype.trim`
(WhiteSpace ∪ LineTerminator, code points). -/
def isJsWhitespace (c : Nat) : Bool :=
  c = 9 || c = 10 || c = 11 || c = 12 || c = 13 || c = 32 || c = 160 ||
  c = 5760 || (8192 ≤ c && c ≤ 8202) || c = 8232 || c = 8233 ||
  c = 8239 || c = 8287 || c = 12288 || c = 65279

/-- JS `String.prototype.trim`: strip leading and trailing whitespace. -/
def jsTrim (s : List Nat) : List Nat :=
  ((s.dropWhile isJsWhitespace).reverse.dropWhile isJsWhitespace).reverse

/-- UTF-8 encoding of one code point (`Buffer.from(str, "utf8")`). -/
def utf8Bytes (c : Nat) : List Nat :=
  if c < 128 then [c]
  else if c < 2048 then [192 + c / 64, 128 + c % 64]
  else if c < 65536 then [224 + c / 4096, 128 + c / 64 % 64, 128 + c % 64]
  else [240 + c / 262144, 128 + c / 4096 % 64, 128 + c / 64 % 64, 128 + c % 64]

/-- UTF-8 encoding of a string given as a list of code points. -/
def utf8Encode (s : List Nat) : List Nat := (s.map utf8Bytes).flatten

/-- A multer upload: `originalname`, `mimetype`, `buffer`.  Empty-string
`originalname`/`mimetype` are falsy in JS and fall back to defaults. -/
structure SFile where
  originalname : List Nat
  mimetype : List Nat
  buffer : List Nat
  deriving DecidableEq, Repr

/-- The `items` array built by `packPayload`: a text item when
`secretText && String(secretText).trim()` is truthy, then a file item when
a secret file is present. -/
def packItems (secretText : List Nat) (secretFile : Option SFile) : List PackItem :=
  (if secretText ≠ [] ∧ jsTrim secretText ≠ [] then
     [⟨TEXT_T, MESSAGE_TXT, TEXT_PLAIN, (utf8Encode secretText).length, utf8Encode secretText⟩]
   else []) ++
  (match secretFile with
   | none => []
   | some f =>
     [⟨FILE_T,
       if f.originalname = [] then SECRET_NAME else f.originalname,
       if f.mimetype = [] then OCTET_STREAM else f.mimetype,
       f.buffer.length, f.buffer⟩])

def metaOf (items : List PackItem) : ContainerMeta := ⟨1, items.map toMetaItem⟩

/-- `packPayload({secretText, secretFile})`: `MAGIC | u32(metaLen) |
metaJSON | item data…`, or the no-secret-data error when no item was
assembled. -/
def packPayload (codec : JsonCodec) (secretText : List Nat) (secretFile : Option SFile) :
    Except JsError (List Nat) :=
  let items := packItems secretText secretFile
  if items = [] then .error .noSecretData
  else
    let metaBuf := codec.stringifyMeta (metaOf items)
    .ok (STEG_MAGIC ++ u32be metaBuf.length ++ metaBuf ++ concatData items)

/-- Model of Node `crypto`: scrypt key derivation and AES-256-GCM.
`aeadEnc key iv plain` returns `(ciphertext, authTag)`;
`aeadDec key iv tag ct` returns `none` exactly when GCM tag verification
fails (`decipher.final()` throws). -/
structure CryptoPrims where
  scrypt : List Nat → List Nat → List Nat
  aeadEnc : List Nat → List Nat → List Nat → List Nat × List Nat
  aeadDec : List Nat → List Nat → List Nat → List Nat → Option (List Nat)

/-- `encryptIfNeeded(buf, password)`.  The fresh random `salt` (16 bytes)
and `iv` (12 bytes) produced by `crypto.randomBytes` are passed in
explicitly.  No-op for an empty (falsy) password; otherwise
`"ENCv1" | salt | iv | tag | u32(ctLen) | ciphertext`. -/
def encryptIfNeeded (prims : CryptoPrims) (salt iv buf password : List Nat) : List Nat :=
  if password = [] then buf
  else
    let key := prims.scrypt password salt
    let enc := (prims.aeadEnc key iv buf).1
    let tag := (prims.aeadEnc key iv buf).2
    ENC_MAGIC ++ salt ++ iv ++ tag ++ u32be enc.length ++ enc

/-- A carrier reader: `bitAt` maps a bit cursor position to the carrier
bit (already masked to 0/1), `cap` is `capacityBits`, `oocErr` the
out-of-capacity error this carrier kind throws. -/
structure BitReader where
  bitAt : Nat → Nat
  cap : Nat
  oocErr : JsError

/-- The image extraction reader: bit `t` is the LSB of the byte at RGBA
offset `4*⌊t/3⌋ + t % 3`; capacity is `width*height*3` bits. -/
def imageReader (data : List Nat) (width height : Nat) : BitReader :=
  ⟨fun t => data.getD (imgOffset t) 0 &&& 1, width * height * 3, .outOfCapacity⟩

/-- The audio extraction reader: bit `t` is the LSB of the byte at offset
`dataOffset + t * bytesPerSample`; capacity is `numSamples` bits. -/
def audioReader (wav : List Nat) (dataOffset bytesPerSample numSamples : Nat) : BitReader :=
  ⟨fun t => wav.getD (wavOffset dataOffset bytesPerSample t) 0 &&& 1,
   numSamples, .outOfAudioCapacity⟩

/-- The inner `for b = 7..0` loop of `readBytes`: assemble one byte
most-significant-bit first, checking the capacity before each bit. -/
def readByteLoop (r : BitReader) : Nat → Nat → Nat → Except JsError (Nat × Nat)
  | bitIdx, byte, 0 => .ok (byte, bitIdx)
  | bitIdx, byte, m + 1 =>
    if r.cap ≤ bitIdx then .error r.oocErr
    else readByteLoop r (bitIdx + 1) (byte ||| (r.bitAt bitIdx <<< m)) m

/-- `reader.readBytes(n)` starting at cursor `bitIdx`: returns the `n`
bytes and the advanced cursor. -/
def readBytesLoop (r : BitReader) : Nat → Nat → Except JsError (List Nat × Nat)
  | bitIdx, 0 => .ok ([], bitIdx)
  | bitIdx, n + 1 =>
    match readByteLoop r bitIdx 0 8 with
    | .error e => .error e
    | .ok (byte, s1) =>
      match readBytesLoop r s1 n with
      | .error e => .error e
      | .ok (rest, s2) => .ok (byte :: rest, s2)

/-- `extractData(reader, password)`: peek 5 bytes; on `"ENCv1"` read the
48-byte envelope header and the declared ciphertext, then decrypt inline
(password check before key derivation); otherwise read the sixth magic
byte, the metadata length, the metadata and the items' data, and return
the reassembled plain container bytes. -/
def extractData (codec : JsonCodec) (prims : CryptoPrims) (r : BitReader)
    (password : List Nat) : Except JsError (List Nat) :=
  match readBytesLoop r 0 5 with
  | .error e => .error e
  | .ok (first5, s1) =>
    if first5 = ENC_MAGIC then
      match readBytesLoop r s1 48 with
      | .error e => .error e
      | .ok (headerRest, s2) =>
        match readU32BE (listSlice headerRest 44 48) with
        | .error e => .error e
        | .ok encLen =>
          match readBytesLoop r s2 encLen with
          | .error e => .error e
          | .ok (enc, _) =>
            let combined := first5 ++ headerRest ++ enc
            if listSlice combined 0 5 ≠ ENC_MAGIC then .error .invalidEncryptedHeader
            else
              let salt := listSlice combined 5 21
              let iv := listSlice combined 21 33
              let tag := listSlice combined 33 49
              match readU32BE (listSlice combined 49 53) with
              | .error e => .error e
              | .ok len =>
                let enc2 := listSlice combined 53 (53 + len)
                if password = [] then .error .passwordRequired
                else
                  match prims.aeadDec (prims.scrypt password salt) iv tag enc2 with
                  | none => .error .authenticationFailed
                  | some dec => .ok dec
    else
      match readBytesLoop r s1 1 with
      | .error e => .error e
      | .ok (sixth, s2) =>
        let magic := first5 ++ sixth
        if magic ≠ STEG_MAGIC then .error .noValidPayload
        else
          match readBytesLoop r s2 4 with
          | .error e => .error e
          | .ok (metaLenBuf, s3) =>
            match readU32BE metaLenBuf with
            | .error e => .error e
            | .ok metaLen =>
              match readBytesLoop r s3 metaLen with
              | .error e => .error e
              | .ok (metaBuf, s4) =>
                match codec.parseMeta metaBuf with
                | none => .error .corruptedMetadata
                | some meta =>
                  let dataTotal := (meta.items.map (fun it => it.len)).sum
                  match readBytesLoop r s4 dataTotal with
                  | .error e => .error e
                  | .ok (dataBuf, _) =>
                    .ok (magic ++ metaLenBuf ++ metaBuf ++ dataBuf)

/-- One step of the WHATWG UTF-8 decoder in its start state: an ASCII
byte is emitted as is, a lead byte (`C2`–`DF`, `E0`–`EF`, `F0`–`F4`)
opens a multi-byte sequence carrying the remaining count, the
accumulated code point (`byte &&& 0x1F/0xF/0x7`) and the boundaries for
the next byte (tightened for `E0`/`ED`/`F0`/`F4`), and any other byte
(a stray continuation byte `80`–`BF`, or `C0`/`C1`/`F5`–`FF`) is an
error emitting one replacement character U+FFFD (65533). -/
inductive U8Step where
  | emit (cp : Nat)
  | cont (rem cp lo hi : Nat)
  deriving DecidableEq, Repr

def utf8Step1 (b : Nat) : U8Step :=
  if b ≤ 0x7f then .emit b
  else if 0xc2 ≤ b ∧ b ≤ 0xdf then .cont 1 (b &&& 0x1f) 0x80 0xbf
  else if 0xe0 ≤ b ∧ b ≤ 0xef then
    .cont 2 (b &&& 0xf) (if b = 0xe0 then 0xa0 else 0x80) (if b = 0xed then 0x9f else 0xbf)
  else if 0xf0 ≤ b ∧ b ≤ 0xf4 then
    .cont 3 (b &&& 0x7) (if b = 0xf0 then 0x90 else 0x80) (if b = 0xf4 then 0x8f else 0xbf)
  else .emit 65533

/-- The WHATWG UTF-8 decoder loop.  `rem` is the number of continuation
bytes still required (0 in the start state), `cp` the accumulated code
point, `lo`/`hi` the inclusive bounds for the next continuation byte.  A
continuation byte outside its bounds emits U+FFFD and the offending byte
is reprocessed in the start state (inlined `utf8Step1` call); a sequence
cut off by the end of input emits one final U+FFFD. -/
def utf8DecodeAux : Nat → Nat → Nat → Nat → List Nat → List Nat
  | 0, _, _, _, [] => []
  | _ + 1, _, _, _, [] => [65533]
  | 0, _, _, _, b :: rest =>
    match utf8Step1 b with
    | .emit cp => cp :: utf8DecodeAux 0 0 0 0 rest
    | .cont rem cp lo hi => utf8DecodeAux rem cp lo hi rest
  | rem + 1, cp, lo, hi, b :: rest =>
    if lo ≤ b ∧ b ≤ hi then
      match rem with
      | 0 => ((cp <<< 6) ||| (b &&& 0x3f)) :: utf8DecodeAux 0 0 0 0 rest
      | r + 1 => utf8DecodeAux (r + 1) ((cp <<< 6) ||| (b &&& 0x3f)) 0x80 0xbf rest
    else
      65533 :: (match utf8Step1 b with
        | .emit cp2 => cp2 :: utf8DecodeAux 0 0 0 0 rest
        | .cont rem2 cp2 lo2 hi2 => utf8DecodeAux rem2 cp2 lo2 hi2 rest)

/-- Node's `data.toString("utf8")`: the WHATWG UTF-8 decoder (what V8
implements — maximal-subpart replacement), returning the string as its
list of Unicode code points.  The identity on ASCII and, more generally,
on valid UTF-8; LOSSY otherwise: each maximal invalid subsequence
becomes one U+FFFD (65533), e.g. the single byte `0xFF` decodes to
`[65533]`. -/
def utf8Decode (bytes : List Nat) : List Nat := utf8DecodeAux 0 0 0 0 bytes

/-- The base64 alphabet `A`–`Z`, `a`–`z`, `0`–`9`, `+`, `/` as ASCII
codes. -/
def b64Char (n : Nat) : Nat :=
  if n < 26 then 65 + n
  else if n < 52 then 97 + (n - 26)
  else if n < 62 then 48 + (n - 52)
  else if n = 62 then 43
  else 47

/-- Node's `data.toString("base64")`: standard base64 with `=` (61)
padding, returned as the list of ASCII codes.  Lossless (injective) on
byte lists. -/
def b64encode : List Nat → List Nat
  | [] => []
  | [a] => [b64Char (a >>> 2), b64Char ((a &&& 3) <<< 4), 61, 61]
  | [a, b] => [b64Char (a >>> 2), b64Char (((a &&& 3) <<< 4) ||| (b >>> 4)),
      b64Char ((b &&& 15) <<< 2), 61]
  | a :: b :: c :: rest =>
    b64Char (a >>> 2) :: b64Char (((a &&& 3) <<< 4) ||| (b >>> 4)) ::
      b64Char (((b &&& 15) <<< 2) ||| (c >>> 6)) :: b64Char (c &&& 63) :: b64encode rest

/-- An item as returned to the client by `parseContainer`.  The JS code
returns text items with `text: data.toString("utf8")` — modelled by the
lossy `utf8Decode`, so `content` holds the string's code points — and
file items with `base64: data.toString("base64")` — modelled by
`b64encode`, so `content` holds the base64 ASCII codes. -/
inductive OutItem where
  | text (name mime content : List Nat)
  | file (name mime content : List Nat)
  deriving DecidableEq, Repr

/-- The `for (const m of meta.items)` slicing loop of `parseContainer`:
each item's bytes are `containerBuf.slice(off, off + m.len)` (clamped, as
in JS); an item is presented as text when `m.t === "text"` or
`m.mime === "text/plain"`, its bytes passed through `data.toString("utf8")`
(`utf8Decode`), and otherwise as a file, its bytes passed through
`data.toString("base64")` (`b64encode`). -/
def sliceItems (buf : List Nat) (off : Nat) : List MetaItem → List OutItem
  | [] => []
  | m :: rest =>
    (if m.t = TEXT_T ∨ m.mime = TEXT_PLAIN then
       OutItem.text m.name m.mime (utf8Decode (listSlice buf off (off + m.len)))
     else
       OutItem.file m.name m.mime (b64encode (listSlice buf off (off + m.len)))) ::
    sliceItems buf (off + m.len) rest

/-- `parseContainer(containerBuf)`: exact 6-byte magic check, metadata
length, JSON metadata, then the item slicing loop. -/
def parseContainer (codec : JsonCodec) (containerBuf : List Nat) :
    Except JsError (List OutItem) :=
  if listSlice containerBuf 0 6 ≠ STEG_MAGIC then .error .magicMismatch
  else
    match readU32BE (listSlice containerBuf 6 10) with
    | .error e => .error e
    | .ok metaLen =>
      match codec.parseMeta (listSlice containerBuf 10 (10 + metaLen)) with
      | none => .error .corruptedMetadata
      | some meta => .ok (sliceItems containerBuf (10 + metaLen) meta.items)

/-- The image branch of the embed route: pack, optionally encrypt, embed
into the raw RGBA buffer. -/
def imageEmbedRoute (codec : JsonCodec) (prims : CryptoPrims) (salt iv : List Nat)
    (rgba : List Nat) (width height : Nat)
    (secretText : List Nat) (secretFile : Option SFile) (password : List Nat) :
    Except JsError (List Nat) :=
  match packPayload codec secretText secretFile with
  | .error e => .error e
  | .ok packed =>
    let payload := encryptIfNeeded prims salt iv packed password
    match embedLSB_RGBA rgba width height payload with
    | (_, some e) => .error e
    | (stego, none) => .ok stego

/-- The audio branch of the embed route: pack, optionally encrypt,
validate the WAV header (`processAudioSimple`), embed into the sample
data. -/
def audioEmbedRoute (codec : JsonCodec) (prims : CryptoPrims) (salt iv : List Nat)
    (wavBuf : List Nat)
    (secretText : List Nat) (secretFile : Option SFile) (password : List Nat) :
    Except JsError (List Nat) :=
  match packPayload codec secretText secretFile with
  | .error e => .error e
  | .ok packed =>
    let payload := encryptIfNeeded prims salt iv packed password
    match parseWavHeader wavBuf with
    | .error e => .error e
    | .ok info =>
      match embedLSB_WavPCM wavBuf payload info.dataOffset info.dataLength
              info.fmt.bitsPerSample with
      | (_, some e) => .error e
      | (stego, none) => .ok stego

/-- The image branch of the extract route. -/
def imageExtractRoute (codec : JsonCodec) (prims : CryptoPrims)
    (rgba : List Nat) (width height : Nat) (password : List Nat) :
    Except JsError (List OutItem) :=
  match extractData codec prims (imageReader rgba width height) password with
  | .error e => .error e
  | .ok containerBuf => parseContainer codec containerBuf

/-- The audio branch of the extract route. -/
def audioExtractRoute (codec : JsonCodec) (prims : CryptoPrims)
    (wav : List Nat) (password : List Nat) : Except JsError (List OutItem) :=
  match parseWavHeader wav with
  | .error e => .error e
  | .ok info =>
    let bytesPerSample := info.fmt.bitsPerSample / 8
    let numSamples := info.dataLength / bytesPerSample
    match extractData codec prims
            (audioReader wav info.dataOffset bytesPerSample numSamples) password with
    | .error e => .error e
    | .ok containerBuf => parseContainer codec containerBuf

def JMETA_HEAD : List Nat := [123, 34, 118, 34, 58]

def JMETA_ITEMS : List Nat := [44, 34, 105, 116, 101, 109, 115, 34, 58, 91]

def ITEM_HEAD : List Nat := [123, 34, 116, 34, 58, 34]

def SEP_NAME : List Nat := [44, 34, 110, 97, 109, 101, 34, 58, 34]

def SEP_MIME : List Nat := [44, 34, 109, 105, 109, 101, 34, 58, 34]

def SEP_LEN : List Nat := [44, 34, 108, 101, 110, 34, 58]

def isDigitB (c : Nat) : Bool := 48 ≤ c && c ≤ 57

def digitsVal (ds : List Nat) : Nat := ds.foldl (fun a c => a * 10 + (c - 48)) 0

/-- Parse a decimal natural (at least one digit). -/
def jpNat (rest : List Nat) : Option (Nat × List Nat) :=
  let ds := rest.takeWhile isDigitB
  if ds = [] then none else some (digitsVal ds, rest.drop ds.length)

/-- Expect a literal byte sequence. -/
def jpLit (pat rest : List Nat) : Option (List Nat) :=
  if pat.isPrefixOf rest then some (rest.drop pat.length) else none

/-- Parse a JSON string body up to and including the closing quote,
handling the escapes emitted for these metadata strings. -/
def jpString : Nat → List Nat → Option (List Nat × List Nat)
  | 0, _ => none
  | _ + 1, [] => none
  | fuel + 1, c :: rest =>
    if c = 34 then some ([], rest)
    else if c = 92 then
      match rest with
      | [] => none
      | e :: rest2 =>
        if e = 34 || e = 92 then
          match jpString fuel rest2 with
          | none => none
          | some (s, r) => some (e :: s, r)
        else none
    else if c < 32 then none
    else
      match jpString fuel rest with
      | none => none
      | some (s, r) => some (c :: s, r)

def jpItem (fuel : Nat) (rest : List Nat) : Option (MetaItem × List Nat) :=
  match jpLit ITEM_HEAD rest with
  | none => none
  | some r1 =>
    match jpString fuel r1 with
    | none => none
    | some (tv, r2) =>
      match jpLit SEP_NAME r2 with
      | none => none
      | some r3 =>
        match jpString fuel r3 with
        | none => none
        | some (nv, r4) =>
          match jpLit SEP_MIME r4 with
          | none => none
          | some r5 =>
            match jpString fuel r5 with
            | none => none
            | some (mv, r6) =>
              match jpLit SEP_LEN r6 with
              | none => none
              | some r7 =>
                match jpNat r7 with
                | none => none
                | some (lv, r8) =>
                  match jpLit [125] r8 with
                  | none => none
                  | some r9 => some (⟨tv, nv, mv, lv⟩, r9)

def jpItemsTail : Nat → List MetaItem → List Nat → Option (List MetaItem × List Nat)
  | 0, _, _ => none
  | fuel + 1, acc, rest =>
    match jpLit [93] rest with
    | some r => some (acc.reverse, r)
    | none =>
      match jpLit [44] rest with
      | none => none
      | some r1 =>
        match jpItem fuel r1 with
        | none => none
        | some (it, r2) => jpItemsTail fuel (it :: acc) r2

/-- Parse the items array after its opening bracket, consuming the
closing bracket. -/
def jpItems (fuel : Nat) (rest : List Nat) : Option (List MetaItem × List Nat) :=
  match jpLit [93] rest with
  | some r => some ([], r)
  | none =>
    match jpItem fuel rest with
    | none => none
    | some (it, r1) => jpItemsTail fuel [it] r1

/-- `JSON.parse`, restricted to the metadata schema; the whole input must
be consumed. -/
def parseMetaJson (bytes : List Nat) : Option ContainerMeta :=
  let fuel := bytes.length + 1
  match jpLit JMETA_HEAD bytes with
  | none => none
  | some r1 =>
    match jpNat r1 with
    | none => none
    | some (v, r2) =>
      match jpLit JMETA_ITEMS r2 with
      | none => none
      | some r3 =>
        match jpItems fuel r3 with
        | none => none
        | some (its, r4) =>
          if r4 = [125] then some ⟨v, its⟩ else none

/-- JSON string escaping for these metadata strings. -/
def escJson (s : List Nat) : List Nat :=
  (s.map (fun c => if c = 34 || c = 92 then [92, c] else [c])).flatten

def natAsciiAux : Nat → Nat → List Nat
  | 0, _ => []
  | f + 1, n => if n < 10 then [48 + n] else natAsciiAux f (n / 10) ++ [48 + n % 10]

/-- Decimal digits of a natural, as ASCII bytes. -/
def natAscii (n : Nat) : List Nat := natAsciiAux (n + 1) n

def stringifyItemJson (it : MetaItem) : List Nat :=
  ITEM_HEAD ++ escJson it.t ++ [34] ++ SEP_NAME ++ escJson it.name ++ [34] ++
    SEP_MIME ++ escJson it.mime ++ [34] ++ SEP_LEN ++ natAscii it.len ++ [125]

/-- `JSON.stringify` of the metadata object. -/
def stringifyMetaJson (m : ContainerMeta) : List Nat :=
  JMETA_HEAD ++ natAscii m.v ++ JMETA_ITEMS ++
    List.intercalate [44] (m.items.map stringifyItemJson) ++ [93, 125]

/-- The concrete JSON codec. -/
def jsonCodec : JsonCodec := ⟨stringifyMetaJson, parseMetaJson⟩

/-- A trivial authenticated-encryption instance used to instantiate
`CryptoPrims` hypotheses at concrete inputs: "encryption" is a byte-wise
shift with a constant tag, and "decryption" succeeds exactly on that tag. -/
def trivPrims : CryptoPrims where
  scrypt := fun password salt => password ++ salt
  aeadEnc := fun _ _ plain => (plain.map (fun b => (b + 1) % 256), List.replicate 16 7)
  aeadDec := fun _ _ tag ct =>
    if tag = List.replicate 16 7 then some (ct.map (fun b => (b + 255) % 256)) else none

/-- The value assembled by `m` iterations of the inner bit loop starting
at cursor `s` (shift `m-1` down to 0, i.e. most-significant-bit first). -/
def asmAux (f : Nat → Nat) : Nat → Nat → Nat
  | _, 0 => 0
  | s, m + 1 => (f s <<< m) ||| asmAux f (s + 1) m

/-- One full byte assembled MSB-first from bits `s … s+7`. -/
def byteFromBits (r : BitReader) (s : Nat) : Nat := asmAux r.bitAt s 8

/-- The reader built over a carrier delivers exactly the payload `p`:
byte `i` of the bit-stream is `p[i]`. -/
def yieldsPayload (r : BitReader) (p : List Nat) : Prop :=
  ∀ i, i < p.length → byteFromBits r (8 * i) = p.getD i 0

/-- The items `parseContainer` reconstructs from a container packed out of
`items`: name, mime and order survive; an item is presented as text
whenever `t = "text"` or `mime = "text/plain"` — in particular a file item
with mime `text/plain` comes back as a text item — and its content is the
lossy UTF-8 decoding of its exact bytes (`utf8Decode`, identity on valid
UTF-8), while a file-classified item's content is the lossless base64
encoding of its exact bytes (`b64encode`). -/
def expectedOut (items : List PackItem) : List OutItem :=
  items.map fun it =>
    if it.t = TEXT_T ∨ it.mime = TEXT_PLAIN then
      OutItem.text it.name it.mime (utf8Decode it.data)
    else OutItem.file it.name it.mime (b64encode it.data)

/-- The 44-byte header of a minimal mono 8-bit PCM WAV whose data chunk
declares `n` bytes; the first byte `b` is 0x52 (`R`) in a genuine RIFF
file but anything with low bits 0x52 passes the masked check. -/
def simpleWavHeaderB (b n : Nat) : List Nat :=
  [b, 73, 70, 70] ++ [0, 0, 0, 0] ++ WAVE_ID ++ FMT_ID ++ [16, 0, 0, 0] ++
    [1, 0, 1, 0, 64, 31, 0, 0, 64, 31, 0, 0, 1, 0, 8, 0] ++ DATA_ID ++
    [n % 256, n / 256 % 256, n / 65536 % 256, n / 16777216 % 256]

/-- An uploaded secret file named `a` with mime `text/plain` and one byte
of content, `0xFF` — not valid UTF-8. -/
def cexFile : SFile := ⟨[97], TEXT_PLAIN, [255]⟩

/-- The container packed from `cexFile` alone. -/
def cexPacked : List Nat :=
  STEG_MAGIC ++
    u32be (jsonCodec.stringifyMeta (metaOf (packItems [] (some cexFile)))).length ++
    jsonCodec.stringifyMeta (metaOf (packItems [] (some cexFile))) ++
    concatData (packItems [] (some cexFile))

/-- A minimal valid 8-bit PCM WAV with a 640-byte data chunk. -/
def cexWavGood : List Nat := simpleWavHeaderB 82 640 ++ List.replicate 640 0

/-- `cexWavGood` with first byte 0xD2 instead of 0x52 (`R`): not a RIFF
container byte-for-byte, identical after masking with 0x7f. -/
def cexWavBad : List Nat := simpleWavHeaderB 210 640 ++ List.replicate 640 0

/-- A bit reader over a plain byte list (bit `i` of the stream is bit
`7 - i%8` of byte `i/8`), used to instantiate reader hypotheses at
concrete inputs. -/
def listReader (p : List Nat) : BitReader :=
  ⟨fun i => payloadBit p i, 8 * p.length, .outOfCapacity⟩

/-- A concrete well-formed envelope whose tag `trivPrims` accepts. -/
def c8env : List Nat :=
  ENC_MAGIC ++ List.replicate 16 3 ++ List.replicate 12 4 ++ List.replicate 16 7 ++
    u32be 1 ++ [9]

/-- A concrete envelope whose tag `trivPrims` rejects (all-zero tag). -/
def c4env : List Nat :=
  ENC_MAGIC ++ List.replicate 16 3 ++ List.replicate 12 4 ++ List.replicate 16 0 ++
    u32be 1 ++ [9]

/-- A WAV whose fmt chunk declares `audioFormat = 2` (not PCM). -/
def c7badPcmWav : List Nat :=
  [82, 73, 70, 70] ++ [0, 0, 0, 0] ++ WAVE_ID ++ FMT_ID ++ [16, 0, 0, 0] ++
    [2, 0, 1, 0, 64, 31, 0, 0, 64, 31, 0, 0, 1, 0, 8, 0] ++ DATA_ID ++
    [4, 0, 0, 0] ++ [0, 0, 0, 0]

def c1text : List Nat := [104, 105]

def c1salt : List Nat := List.replicate 16 1

def c1iv : List Nat := List.replicate 12 2

/-- The packed container for the secret text `hi`. -/
def c1packed : List Nat :=
  STEG_MAGIC ++
    u32be (jsonCodec.stringifyMeta (metaOf (packItems c1text none))).length ++
    jsonCodec.stringifyMeta (metaOf (packItems c1text none)) ++
    concatData (packItems c1text none)

/-- The encrypted payload under password `p` (byte 112). -/
def c1payload : List Nat := encryptIfNeeded trivPrims c1salt c1iv c1packed [112]

def c1rgba : List Nat := List.replicate 1936 9

def c1wav : List Nat := simpleWavHeaderB 82 1152 ++ List.replicate 1152 0

/-! ### Theorems -/

theorem lsbWrite_and_one : ∀ x < 256, ∀ b < 2, lsbWrite x b &&& 1 = b := by
  decide

theorem lsbWrite_shiftRight : ∀ x < 256, ∀ b < 2, lsbWrite x b >>> 1 = x >>> 1 := by
  decide

theorem payloadBit_lt_two (p : List Nat) (i : Nat) : payloadBit p i < 2 := by
  have h : payloadBit p i ≤ 1 := by
    unfold payloadBit
    rw [Nat.and_one_is_mod]
    omega
  omega

theorem u32be_length (n : Nat) : (u32be n).length = 4 := rfl

theorem u32be_bytes_lt (n : Nat) : ∀ b ∈ u32be n, b < 256 := by
  intro b hb
  unfold u32be at hb
  simp only [List.mem_cons, List.mem_singleton] at hb
  have h32 : n % 4294967296 < 4294967296 := Nat.mod_lt _ (by omega)
  rcases hb with h | h | h | h | h
  all_goals first
  | (subst h; omega)
  | exact absurd h (by simp)

theorem readU32BE_u32be (n : Nat) (h : n < 4294967296) : readU32BE (u32be n) = .ok n := by
  unfold readU32BE u32be
  rw [if_pos (by simp)]
  simp only [List.getD_cons_zero, List.getD_cons_succ]
  rw [Nat.mod_eq_of_lt h]
  congr 1
  omega

theorem listSlice_zero_eq_take (l : List Nat) (b : Nat) : listSlice l 0 b = l.take b := by
  simp [listSlice]

/-- Set at one index, read at another. -/
theorem getD_set_ne (l : List Nat) (a j v : Nat) (h : a ≠ j) :
    (l.set a v).getD j 0 = l.getD j 0 := by
  simp [List.getD_eq_getElem?_getD, List.getElem?_set_ne h]

/-- Set and read at the same in-range index. -/
theorem getD_set_self (l : List Nat) (a v : Nat) (h : a < l.length) :
    (l.set a v).getD a 0 = v := by
  simp [List.getD_eq_getElem?_getD, List.getElem?_set_self h]

theorem writeBitsN_zero (off : Nat → Nat) (p buf : List Nat) :
    writeBitsN off p buf 0 = buf := rfl

theorem writeBitsN_succ (off : Nat → Nat) (p buf : List Nat) (n : Nat) :
    writeBitsN off p buf (n + 1) =
      (writeBitsN off p buf n).set (off n)
        (lsbWrite ((writeBitsN off p buf n).getD (off n) 0) (payloadBit p n)) := by
  unfold writeBitsN
  rw [List.range_succ, List.foldl_append]
  rfl

theorem writeBitsN_length (off : Nat → Nat) (p buf : List Nat) (n : Nat) :
    (writeBitsN off p buf n).length = buf.length := by
  induction n with
  | zero => rfl
  | succ n ih => rw [writeBitsN_succ, List.length_set, ih]

/-- Untouched offsets keep their original bytes. -/
theorem writeBitsN_getD_out (off : Nat → Nat) (p buf : List Nat) (n j : Nat)
    (h : ∀ i, i < n → off i ≠ j) :
    (writeBitsN off p buf n).getD j 0 = buf.getD j 0 := by
  induction n with
  | zero => rfl
  | succ n ih =>
    rw [writeBitsN_succ, getD_set_ne _ _ _ _ (h n (Nat.lt_succ_self n))]
    exact ih (fun i hi => h i (Nat.lt_succ_of_lt hi))

/-- Written offsets hold the LSB-overwritten original byte (the offsets
are pairwise distinct, so each is written exactly once, from the original
value). -/
theorem writeBitsN_getD_in (off : Nat → Nat) (p buf : List Nat) (n : Nat)
    (hinj : ∀ a b, a < n → b < n → off a = off b → a = b)
    (hrange : ∀ a, a < n → off a < buf.length)
    (i : Nat) (hi : i < n) :
    (writeBitsN off p buf n).getD (off i) 0 =
      lsbWrite (buf.getD (off i) 0) (payloadBit p i) := by
  induction n with
  | zero => omega
  | succ n ih =>
    rcases Nat.lt_succ_iff_lt_or_eq.mp hi with hlt | heq
    · rw [writeBitsN_succ]
      have hne : off n ≠ off i := by
        intro hoff
        have := hinj n i (Nat.lt_succ_self n) (Nat.lt_succ_of_lt hlt) hoff
        omega
      rw [getD_set_ne _ _ _ _ hne]
      exact ih (fun a b ha hb => hinj a b (Nat.lt_succ_of_lt ha) (Nat.lt_succ_of_lt hb))
        (fun a ha => hrange a (Nat.lt_succ_of_lt ha)) hlt
    · subst heq
      rw [writeBitsN_succ]
      have hlen : off i < (writeBitsN off p buf i).length := by
        rw [writeBitsN_length]
        exact hrange i (Nat.lt_succ_self i)
      rw [getD_set_self _ _ _ hlen]
      congr 1
      exact writeBitsN_getD_out off p buf i (off i)
        (fun a ha hoff => by
          have := hinj a i (Nat.lt_succ_of_lt ha) (Nat.lt_succ_self i) hoff
          omega)

theorem imgOffset_inj (a b : Nat) (h : imgOffset a = imgOffset b) : a = b := by
  unfold imgOffset at h
  omega

theorem imgOffset_lt (i w : Nat) (h : i < 3 * w) : imgOffset i < 4 * w := by
  unfold imgOffset
  omega

theorem imgOffset_mono (a b : Nat) (h : a < b) : imgOffset a < imgOffset b := by
  unfold imgOffset
  omega

theorem imgOffset_mod_four (i : Nat) : imgOffset i % 4 = i % 3 := by
  unfold imgOffset
  omega

theorem imgOffset_ne_alpha (i j : Nat) (hj : j % 4 = 3) : imgOffset i ≠ j := by
  have := imgOffset_mod_four i
  omega

theorem wavOffset_inj (dO bps a b : Nat) (hbps : 0 < bps)
    (h : wavOffset dO bps a = wavOffset dO bps b) : a = b := by
  unfold wavOffset at h
  have := Nat.eq_of_mul_eq_mul_right hbps (by omega : a * bps = b * bps)
  omega

theorem wavOffset_lt (dO bps i len dLen : Nat) (hbps : 0 < bps)
    (hi : i < dLen / bps) (hlen : dO + dLen ≤ len) :
    wavOffset dO bps i < len := by
  unfold wavOffset
  have h1 : (i + 1) * bps ≤ dLen / bps * bps := Nat.mul_le_mul_right bps hi
  have h2 : dLen / bps * bps ≤ dLen := Nat.div_mul_le_self dLen bps
  have h3 : i * bps + bps ≤ dLen := by
    calc i * bps + bps = (i + 1) * bps := by ring
    _ ≤ dLen / bps * bps := h1
    _ ≤ dLen := h2
  omega

theorem wavOffset_mono (dO bps a b : Nat) (hbps : 0 < bps) (h : a < b) :
    wavOffset dO bps a < wavOffset dO bps b := by
  unfold wavOffset
  have := (Nat.mul_lt_mul_right hbps).mpr h
  omega

theorem readByteLoop_ok (r : BitReader) (m : Nat) :
    ∀ s byte, s + m ≤ r.cap →
      readByteLoop r s byte m = .ok (byte ||| asmAux r.bitAt s m, s + m) := by
  induction m with
  | zero => intro s byte _; simp [readByteLoop, asmAux, Nat.or_zero]
  | succ m ih =>
    intro s byte h
    show (if r.cap ≤ s then _ else _) = _
    rw [if_neg (by omega)]
    rw [ih (s + 1) _ (by omega)]
    rw [Nat.lor_assoc]
    have hs : s + 1 + m = s + (m + 1) := by omega
    rw [hs]
    rfl

theorem readByteLoop_err (r : BitReader) (m : Nat) :
    ∀ s byte, r.cap < s + m → 0 < m →
      readByteLoop r s byte m = .error r.oocErr := by
  induction m with
  | zero => omega
  | succ m ih =>
    intro s byte h _
    show (if r.cap ≤ s then _ else _) = _
    by_cases hc : r.cap ≤ s
    · rw [if_pos hc]
    · rw [if_neg hc]
      exact ih (s + 1) _ (by omega) (by omega)

theorem readBytesLoop_ok (r : BitReader) (n : Nat) :
    ∀ s, s + 8 * n ≤ r.cap →
      readBytesLoop r s n =
        .ok ((List.range n).map (fun i => byteFromBits r (s + 8 * i)), s + 8 * n) := by
  induction n with
  | zero => intro s _; simp [readBytesLoop]
  | succ n ih =>
    intro s h
    simp only [readBytesLoop]
    rw [readByteLoop_ok r 8 s 0 (by omega)]
    show (match readBytesLoop r (s + 8) n with
      | Except.error e => Except.error e
      | Except.ok (rest, s2) => Except.ok ((0 ||| asmAux r.bitAt s 8) :: rest, s2)) = _
    rw [ih (s + 8) (by omega)]
    show Except.ok ((0 ||| asmAux r.bitAt s 8) ::
        List.map (fun i => byteFromBits r (s + 8 + 8 * i)) (List.range n), s + 8 + 8 * n) = _
    congr 1
    rw [Prod.mk.injEq]
    constructor
    · rw [List.range_succ_eq_map]
      simp only [List.map_cons, List.map_map]
      congr 1
      · show 0 ||| asmAux r.bitAt s 8 = byteFromBits r (s + 8 * 0)
        rw [Nat.zero_or]
        unfold byteFromBits
        norm_num
      · apply List.map_congr_left
        intro i _
        show byteFromBits r (s + 8 + 8 * i) = byteFromBits r (s + 8 * (i + 1))
        congr 1
        omega
    · omega

theorem readBytesLoop_err (r : BitReader) (n : Nat) :
    ∀ s, r.cap < s + 8 * n → 0 < n →
      readBytesLoop r s n = .error r.oocErr := by
  induction n with
  | zero => omega
  | succ n ih =>
    intro s h _
    simp only [readBytesLoop]
    by_cases hc : s + 8 ≤ r.cap
    · rw [readByteLoop_ok r 8 s 0 hc]
      have hn : 0 < n := by omega
      show (match readBytesLoop r (s + 8) n with
        | Except.error e => Except.error e
        | Except.ok (rest, s2) => Except.ok ((0 ||| asmAux r.bitAt s 8) :: rest, s2)) = _
      rw [ih (s + 8) (by omega) hn]
    · rw [readByteLoop_err r 8 s 0 (by omega) (by omega)]

theorem asm8_expand (f : Nat → Nat) (s : Nat) :
    asmAux f s 8 =
      (f s <<< 7) ||| ((f (s + 1) <<< 6) ||| ((f (s + 2) <<< 5) ||| ((f (s + 3) <<< 4) |||
        ((f (s + 4) <<< 3) ||| ((f (s + 5) <<< 2) ||| ((f (s + 6) <<< 1) |||
          ((f (s + 7) <<< 0) ||| 0))))))) := rfl

theorem byte_recompose : ∀ v < 256,
    (((v >>> 7) &&& 1) <<< 7) ||| ((((v >>> 6) &&& 1) <<< 6) ||| ((((v >>> 5) &&& 1) <<< 5) |||
      ((((v >>> 4) &&& 1) <<< 4) ||| ((((v >>> 3) &&& 1) <<< 3) ||| ((((v >>> 2) &&& 1) <<< 2) |||
        ((((v >>> 1) &&& 1) <<< 1) ||| ((((v >>> 0) &&& 1) <<< 0) ||| 0))))))) = v := by
  decide

/-- Assembling 8 consecutive bits MSB-first recovers the byte they encode. -/
theorem asm_of_bits (v : Nat) (hv : v < 256) (f : Nat → Nat) (s : Nat)
    (hf : ∀ k, k < 8 → f (s + k) = (v >>> (7 - k)) &&& 1) :
    asmAux f s 8 = v := by
  rw [asm8_expand]
  have e0 : f s = (v >>> 7) &&& 1 := by simpa using hf 0 (by omega)
  have e1 : f (s + 1) = (v >>> 6) &&& 1 := by simpa using hf 1 (by omega)
  have e2 : f (s + 2) = (v >>> 5) &&& 1 := by simpa using hf 2 (by omega)
  have e3 : f (s + 3) = (v >>> 4) &&& 1 := by simpa using hf 3 (by omega)
  have e4 : f (s + 4) = (v >>> 3) &&& 1 := by simpa using hf 4 (by omega)
  have e5 : f (s + 5) = (v >>> 2) &&& 1 := by simpa using hf 5 (by omega)
  have e6 : f (s + 6) = (v >>> 1) &&& 1 := by simpa using hf 6 (by omega)
  have e7 : f (s + 7) = (v >>> 0) &&& 1 := by simpa using hf 7 (by omega)
  rw [e0, e1, e2, e3, e4, e5, e6, e7]
  exact byte_recompose v hv

theorem payloadBit_at (p : List Nat) (i k : Nat) (hk : k < 8) :
    payloadBit p (8 * i + k) = (p.getD i 0 >>> (7 - k)) &&& 1 := by
  unfold payloadBit
  have h1 : (8 * i + k) / 8 = i := by omega
  have h2 : (8 * i + k) % 8 = k := by omega
  rw [h1, h2]

theorem getD_mem (l : List Nat) (j : Nat) (h : j < l.length) : l.getD j 0 ∈ l := by
  rw [List.getD_eq_getElem l 0 h]
  exact List.getElem_mem h

/-- Core inversion: after `writeBits`, re-assembling 8 consecutive LSBs
through the same offset map returns the original payload byte. -/
theorem asm_write_inv (off : Nat → Nat) (p buf : List Nat)
    (hinj : ∀ a b, a < 8 * p.length → b < 8 * p.length → off a = off b → a = b)
    (hrange : ∀ a, a < 8 * p.length → off a < buf.length)
    (hbuf : ∀ v ∈ buf, v < 256) (hp : ∀ v ∈ p, v < 256)
    (i : Nat) (hi : i < p.length) :
    asmAux (fun t => (writeBits off p buf).getD (off t) 0 &&& 1) (8 * i) 8 = p.getD i 0 := by
  have hv : p.getD i 0 < 256 := hp _ (getD_mem p i hi)
  apply asm_of_bits _ hv
  intro k hk
  have hik : 8 * i + k < 8 * p.length := by omega
  have hmul : bitsNeeded p.length = 8 * p.length := by
    unfold bitsNeeded; omega
  have hwrite : (writeBits off p buf).getD (off (8 * i + k)) 0 =
      lsbWrite (buf.getD (off (8 * i + k)) 0) (payloadBit p (8 * i + k)) := by
    unfold writeBits
    rw [hmul]
    exact writeBitsN_getD_in off p buf (8 * p.length) hinj hrange (8 * i + k) hik
  rw [hwrite]
  have hx : buf.getD (off (8 * i + k)) 0 < 256 :=
    hbuf _ (getD_mem buf _ (hrange _ hik))
  rw [lsbWrite_and_one _ hx _ (payloadBit_lt_two p (8 * i + k))]
  exact payloadBit_at p i k hk

/-- The image extraction reader over an embedded RGBA buffer yields the
payload. -/
theorem imageReader_yields (p rgba : List Nat) (w h : Nat)
    (hlen : rgba.length = 4 * (w * h)) (hcap : 8 * p.length ≤ w * h * 3)
    (hbuf : ∀ v ∈ rgba, v < 256) (hp : ∀ v ∈ p, v < 256) :
    yieldsPayload (imageReader (writeBits imgOffset p rgba) w h) p := by
  intro i hi
  show asmAux (fun t => (writeBits imgOffset p rgba).getD (imgOffset t) 0 &&& 1) (8 * i) 8 =
    p.getD i 0
  apply asm_write_inv imgOffset p rgba
  · intro a b _ _ hab
    exact imgOffset_inj a b hab
  · intro a ha
    rw [hlen]
    exact imgOffset_lt a (w * h) (by omega)
  · exact hbuf
  · exact hp
  · exact hi

/-- The audio extraction reader over an embedded WAV buffer yields the
payload. -/
theorem audioReader_yields (p wav : List Nat) (dO bps dLen : Nat) (hbps : 0 < bps)
    (hcap : 8 * p.length ≤ dLen / bps) (hlen : dO + dLen ≤ wav.length)
    (hbuf : ∀ v ∈ wav, v < 256) (hp : ∀ v ∈ p, v < 256) :
    yieldsPayload
      (audioReader (writeBits (wavOffset dO bps) p wav) dO bps (dLen / bps)) p := by
  intro i hi
  show asmAux
      (fun t => (writeBits (wavOffset dO bps) p wav).getD (wavOffset dO bps t) 0 &&& 1)
      (8 * i) 8 = p.getD i 0
  apply asm_write_inv (wavOffset dO bps) p wav
  · intro a b _ _ hab
    exact wavOffset_inj dO bps a b hbps hab
  · intro a ha
    exact wavOffset_lt dO bps a wav.length dLen hbps (by omega) hlen
  · exact hbuf
  · exact hp
  · exact hi

theorem map_getD_range (p : List Nat) (k n : Nat) (h : k + n ≤ p.length) :
    (List.range n).map (fun i => p.getD (k + i) 0) = (p.drop k).take n := by
  induction n with
  | zero => simp
  | succ n ih =>
    rw [List.range_succ, List.map_append, ih (by omega), List.take_succ]
    congr 1
    have hk : k + n < p.length := by omega
    rw [List.getElem?_drop, List.getElem?_eq_getElem hk]
    simp [List.getD_eq_getElem?_getD, List.getElem?_eq_getElem hk]

/-- `readBytes(n)` on a payload-yielding reader returns the corresponding
payload slice and advances the cursor by `8 * n` bits. -/
theorem readBytesLoop_yields (r : BitReader) (p : List Nat) (hy : yieldsPayload r p)
    (hcap : 8 * p.length ≤ r.cap) (k n : Nat) (h : k + n ≤ p.length) :
    readBytesLoop r (8 * k) n = .ok ((p.drop k).take n, 8 * (k + n)) := by
  rw [readBytesLoop_ok r n (8 * k) (by omega)]
  congr 1
  rw [Prod.mk.injEq]
  constructor
  · have hcg : ∀ i ∈ List.range n,
        byteFromBits r (8 * k + 8 * i) = p.getD (k + i) 0 := by
      intro i hi
      rw [List.mem_range] at hi
      have hik : k + i < p.length := by omega
      have := hy (k + i) hik
      rw [← this]
      congr 1
      omega
    rw [List.map_congr_left hcg]
    exact map_getD_range p k n h
  · omega

/-- Reading a plain container `STEGv1 | u32(metaLen) | metaJSON | data`
out of the carrier returns exactly the container bytes. -/
theorem extractData_plain (codec : JsonCodec) (prims : CryptoPrims) (r : BitReader)
    (mb d : List Nat) (meta : ContainerMeta) (p : List Nat)
    (hml : mb.length < 4294967296)
    (hmeta : codec.parseMeta mb = some meta)
    (hlen : (meta.items.map (fun it => it.len)).sum = d.length)
    (hp : p = STEG_MAGIC ++ u32be mb.length ++ mb ++ d)
    (hy : yieldsPayload r p) (hcap : 8 * p.length ≤ r.cap) (password : List Nat) :
    extractData codec prims r password = .ok p := by
  have plength : p.length = 10 + mb.length + d.length := by
    rw [hp]
    simp [STEG_MAGIC, u32be, List.length_append]
    omega
  have f1 : p.take 5 = [83, 84, 69, 71, 118] := by rw [hp]; exact rfl
  have f2 : (p.drop 5).take 1 = [49] := by rw [hp]; exact rfl
  have f3 : (p.drop 6).take 4 = u32be mb.length := by rw [hp]; exact rfl
  have f4a : p.drop 10 = mb ++ d := by rw [hp]; exact rfl
  have f4 : (p.drop 10).take mb.length = mb := by
    rw [f4a]
    exact List.take_left mb d
  have f5a : p.drop (10 + mb.length) = d := by
    have hd : (p.drop 10).drop mb.length = p.drop (10 + mb.length) := List.drop_drop _ _ _
    rw [← hd, f4a, List.drop_left]
  have f5 : (p.drop (10 + mb.length)).take d.length = d := by
    rw [f5a, List.take_length]
  have r1 : readBytesLoop r 0 5 = .ok ([83, 84, 69, 71, 118], 40) := by
    simpa [f1] using readBytesLoop_yields r p hy hcap 0 5 (by omega)
  have r2 : readBytesLoop r 40 1 = .ok ([49], 48) := by
    simpa [f2] using readBytesLoop_yields r p hy hcap 5 1 (by omega)
  have r3 : readBytesLoop r 48 4 = .ok (u32be mb.length, 80) := by
    simpa [f3] using readBytesLoop_yields r p hy hcap 6 4 (by omega)
  have r4 : readBytesLoop r 80 mb.length = .ok (mb, 8 * (10 + mb.length)) := by
    simpa [f4] using readBytesLoop_yields r p hy hcap 10 mb.length (by omega)
  have r5 : readBytesLoop r (8 * (10 + mb.length)) d.length =
      .ok (d, 8 * (10 + mb.length + d.length)) := by
    simpa [f5] using readBytesLoop_yields r p hy hcap (10 + mb.length) d.length (by omega)
  have h32 : readU32BE (u32be mb.length) = .ok mb.length := readU32BE_u32be _ hml
  have hne : (([83, 84, 69, 71, 118] : List Nat) = ENC_MAGIC) = False := by decide
  have hmag : ([83, 84, 69, 71, 118] ++ [49] : List Nat) = STEG_MAGIC := by decide
  simp only [extractData, r1, r2, r3, r4, r5, h32, hmeta, hlen, hne, hmag, ne_eq,
    eq_self_iff_true, not_true, if_false, ite_false]
  rw [hp]

theorem take_append_of_len (a b : List Nat) (n : Nat) (h : a.length = n) :
    (a ++ b).take n = a := by
  subst h
  exact List.take_left a b

theorem drop_append_of_len (a b : List Nat) (n : Nat) (h : a.length = n) :
    (a ++ b).drop n = b := by
  subst h
  exact List.drop_left a b

/-- Reading an `ENCv1` envelope out of the carrier reaches the inline
decryption: empty password fails with the password-required error before
key derivation, otherwise the result is decided by GCM decryption of the
recovered ciphertext under the scrypt-derived key. -/
theorem extractData_enc (codec : JsonCodec) (prims : CryptoPrims) (r : BitReader)
    (salt iv tag ct p : List Nat)
    (hsalt : salt.length = 16) (hiv : iv.length = 12) (htag : tag.length = 16)
    (hct : ct.length < 4294967296)
    (hp : p = ENC_MAGIC ++ salt ++ iv ++ tag ++ u32be ct.length ++ ct)
    (hy : yieldsPayload r p) (hcap : 8 * p.length ≤ r.cap) (password : List Nat) :
    extractData codec prims r password =
      if password = [] then .error .passwordRequired
      else
        match prims.aeadDec (prims.scrypt password salt) iv tag ct with
        | none => .error .authenticationFailed
        | some dec => .ok dec := by
  have plength : p.length = 53 + ct.length := by
    rw [hp]
    simp [ENC_MAGIC, u32be, List.length_append, hsalt, hiv, htag]
    omega
  have f1 : p.take 5 = [69, 78, 67, 118, 49] := by rw [hp]; exact rfl
  have f2a : p.drop 5 = salt ++ iv ++ tag ++ u32be ct.length ++ ct := by
    rw [hp]; exact rfl
  have hH : ((salt ++ iv ++ tag ++ u32be ct.length : List Nat)).length = 48 := by
    simp [List.length_append, hsalt, hiv, htag, u32be_length]
  have f2 : (p.drop 5).take 48 = salt ++ iv ++ tag ++ u32be ct.length := by
    rw [f2a]
    exact take_append_of_len _ _ 48 hH
  have s5 : p.drop 5 = salt ++ (iv ++ (tag ++ (u32be ct.length ++ ct))) := by
    rw [f2a]
    simp [List.append_assoc]
  have s21 : p.drop 21 = iv ++ (tag ++ (u32be ct.length ++ ct)) := by
    have h1 : p.drop 21 = (p.drop 5).drop 16 := by
      rw [List.drop_drop]
    rw [h1, s5, drop_append_of_len _ _ 16 hsalt]
  have s33 : p.drop 33 = tag ++ (u32be ct.length ++ ct) := by
    have h1 : p.drop 33 = (p.drop 21).drop 12 := by
      rw [List.drop_drop]
    rw [h1, s21, drop_append_of_len _ _ 12 hiv]
  have s49 : p.drop 49 = u32be ct.length ++ ct := by
    have h1 : p.drop 49 = (p.drop 33).drop 16 := by
      rw [List.drop_drop]
    rw [h1, s33, drop_append_of_len _ _ 16 htag]
  have s53 : p.drop 53 = ct := by
    have h1 : p.drop 53 = (p.drop 49).drop 4 := by
      rw [List.drop_drop]
    rw [h1, s49, drop_append_of_len _ _ 4 (u32be_length _)]
  have r1 : readBytesLoop r 0 5 = .ok ([69, 78, 67, 118, 49], 40) := by
    simpa [f1] using readBytesLoop_yields r p hy hcap 0 5 (by omega)
  have r2 : readBytesLoop r 40 48 = .ok (salt ++ iv ++ tag ++ u32be ct.length, 424) := by
    simpa [f2] using readBytesLoop_yields r p hy hcap 5 48 (by omega)
  have f3 : (p.drop 53).take ct.length = ct := by rw [s53, List.take_length]
  have r3 : readBytesLoop r 424 ct.length = .ok (ct, 8 * (53 + ct.length)) := by
    simpa [f3] using readBytesLoop_yields r p hy hcap 53 ct.length (by omega)
  have hdr44 : listSlice (salt ++ iv ++ tag ++ u32be ct.length) 44 48 = u32be ct.length := by
    show ((salt ++ iv ++ tag ++ u32be ct.length).drop 44).take 4 = u32be ct.length
    have hpre : ((salt ++ iv ++ tag : List Nat)).length = 44 := by
      simp [List.length_append, hsalt, hiv, htag]
    rw [drop_append_of_len _ _ 44 hpre]
    exact rfl
  have h32 : readU32BE (u32be ct.length) = .ok ct.length := readU32BE_u32be _ hct
  have henc : (([69, 78, 67, 118, 49] : List Nat) = ENC_MAGIC) = True := by decide
  have hcombined :
      ([69, 78, 67, 118, 49] ++ (salt ++ iv ++ tag ++ u32be ct.length)) ++ ct = p := by
    rw [hp]
    exact rfl
  have hp0 : listSlice p 0 5 = ENC_MAGIC := by
    show p.take (5 - 0) = ENC_MAGIC
    rw [hp]
    exact rfl
  have hp_salt : listSlice p 5 21 = salt := by
    show (p.drop 5).take 16 = salt
    rw [s5]
    exact take_append_of_len _ _ 16 hsalt
  have hp_iv : listSlice p 21 33 = iv := by
    show (p.drop 21).take 12 = iv
    rw [s21]
    exact take_append_of_len _ _ 12 hiv
  have hp_tag : listSlice p 33 49 = tag := by
    show (p.drop 33).take 16 = tag
    rw [s33]
    exact take_append_of_len _ _ 16 htag
  have hp_len : listSlice p 49 53 = u32be ct.length := by
    show (p.drop 49).take 4 = u32be ct.length
    rw [s49]
    exact take_append_of_len _ _ 4 (u32be_length _)
  have hp_enc2 : listSlice p 53 (53 + ct.length) = ct := by
    show (p.drop 53).take (53 + ct.length - 53) = ct
    have harith : 53 + ct.length - 53 = ct.length := by omega
    rw [harith, s53, List.take_length]
  simp only [extractData, r1, henc, ite_true, r2, hdr44, h32, r3, hcombined,
    hp0, ne_eq, eq_self_iff_true, not_true, if_false, ite_false,
    hp_salt, hp_iv, hp_tag, hp_len, hp_enc2]

theorem sliceItems_concat (items : List PackItem) :
    ∀ pre : List Nat, (∀ it ∈ items, it.len = it.data.length) →
      sliceItems (pre ++ concatData items) pre.length (items.map toMetaItem) =
        expectedOut items := by
  induction items with
  | nil =>
    intro pre _
    simp [sliceItems, expectedOut]
  | cons it rest ih =>
    intro pre hlens
    have hit : it.len = it.data.length := hlens it (by simp)
    have hcd : concatData (it :: rest) = it.data ++ concatData rest := by
      simp [concatData]
    rw [hcd, List.map_cons]
    simp only [sliceItems, toMetaItem]
    have hslice : listSlice (pre ++ (it.data ++ concatData rest)) pre.length
        (pre.length + it.len) = it.data := by
      show ((pre ++ (it.data ++ concatData rest)).drop pre.length).take
        (pre.length + it.len - pre.length) = it.data
      rw [drop_append_of_len pre _ pre.length rfl]
      have harith : pre.length + it.len - pre.length = it.len := by omega
      rw [harith]
      exact take_append_of_len _ _ it.len hit.symm
    have htail : sliceItems (pre ++ (it.data ++ concatData rest))
        (pre.length + it.len) (rest.map toMetaItem) = expectedOut rest := by
      have hb : pre ++ (it.data ++ concatData rest) = (pre ++ it.data) ++ concatData rest := by
        rw [List.append_assoc]
      have ho : pre.length + it.len = (pre ++ it.data).length := by
        rw [List.length_append]
        omega
      rw [hb, ho]
      exact ih (pre ++ it.data) (fun x hx => hlens x (by simp [hx]))
    rw [hslice, htail]
    simp [expectedOut]

theorem packItems_lens (t : List Nat) (f : Option SFile) :
    ∀ it ∈ packItems t f, it.len = it.data.length := by
  intro it hit
  unfold packItems at hit
  rcases List.mem_append.mp hit with h | h
  · by_cases hc : t ≠ [] ∧ jsTrim t ≠ []
    · rw [if_pos hc] at h
      simp only [List.mem_singleton] at h
      subst h
      rfl
    · rw [if_neg hc] at h
      simp at h
  · rcases f with _ | fl
    · simp at h
    · simp only [List.mem_singleton] at h
      subst h
      rfl

theorem metaOf_sum (items : List PackItem)
    (hlens : ∀ it ∈ items, it.len = it.data.length) :
    (((metaOf items).items).map (fun it => it.len)).sum = (concatData items).length := by
  simp only [metaOf, concatData, List.length_flatten, List.map_map]
  apply congrArg
  apply List.map_congr_left
  intro it hit
  show it.len = it.data.length
  exact hlens it hit

theorem packPayload_ok (codec : JsonCodec) (t : List Nat) (f : Option SFile)
    (packed : List Nat) (h : packPayload codec t f = .ok packed) :
    packItems t f ≠ [] ∧
      packed = STEG_MAGIC ++
        u32be (codec.stringifyMeta (metaOf (packItems t f))).length ++
        codec.stringifyMeta (metaOf (packItems t f)) ++ concatData (packItems t f) := by
  by_cases hi : packItems t f = []
  · simp only [packPayload] at h
    rw [if_pos hi] at h
    exact absurd h (by simp)
  · simp only [packPayload] at h
    rw [if_neg hi] at h
    exact ⟨hi, (Except.ok.inj h).symm⟩

theorem parseContainer_packed (codec : JsonCodec) (items : List PackItem) (mb : List Nat)
    (hml : mb.length < 4294967296)
    (hmeta : codec.parseMeta mb = some (metaOf items))
    (hlens : ∀ it ∈ items, it.len = it.data.length) :
    parseContainer codec (STEG_MAGIC ++ u32be mb.length ++ mb ++ concatData items) =
      .ok (expectedOut items) := by
  have g1 : listSlice (STEG_MAGIC ++ u32be mb.length ++ mb ++ concatData items) 0 6 =
      STEG_MAGIC := rfl
  have g2 : listSlice (STEG_MAGIC ++ u32be mb.length ++ mb ++ concatData items) 6 10 =
      u32be mb.length := rfl
  have g3 : readU32BE (u32be mb.length) = .ok mb.length := readU32BE_u32be _ hml
  have g4 : listSlice (STEG_MAGIC ++ u32be mb.length ++ mb ++ concatData items) 10
      (10 + mb.length) = mb := by
    show ((STEG_MAGIC ++ u32be mb.length ++ mb ++ concatData items).drop 10).take
      (10 + mb.length - 10) = mb
    have hd : (STEG_MAGIC ++ u32be mb.length ++ mb ++ concatData items).drop 10 =
        mb ++ concatData items := rfl
    have ha : 10 + mb.length - 10 = mb.length := by omega
    rw [ha, hd]
    exact List.take_left mb _
  have hpre : (STEG_MAGIC ++ u32be mb.length ++ mb).length = 10 + mb.length := by
    simp [STEG_MAGIC, u32be, List.length_append]
    omega
  have g5 : sliceItems (STEG_MAGIC ++ u32be mb.length ++ mb ++ concatData items)
      (10 + mb.length) ((metaOf items).items) = expectedOut items := by
    have hmi : (metaOf items).items = items.map toMetaItem := rfl
    rw [hmi, ← hpre]
    exact sliceItems_concat items (STEG_MAGIC ++ u32be mb.length ++ mb) hlens
  simp only [parseContainer, g1, ne_eq, eq_self_iff_true, not_true, if_false, ite_false,
    g2, g3, g4, hmeta, g5]

/-- `extractData` over a reader that yields the embedded payload recovers
the packed container bytes, with or without a password (under the GCM
round-trip contract for the non-empty-password case). -/
theorem extractData_payload (codec : JsonCodec) (prims : CryptoPrims) (r : BitReader)
    (salt iv : List Nat) (t : List Nat) (f : Option SFile) (pw packed payload : List Nat)
    (hpack : packPayload codec t f = .ok packed)
    (hmeta : codec.parseMeta (codec.stringifyMeta (metaOf (packItems t f))) =
      some (metaOf (packItems t f)))
    (hml : (codec.stringifyMeta (metaOf (packItems t f))).length < 4294967296)
    (hpl : payload = encryptIfNeeded prims salt iv packed pw)
    (hsalt : pw ≠ [] → salt.length = 16)
    (hiv : pw ≠ [] → iv.length = 12)
    (htag : pw ≠ [] → ((prims.aeadEnc (prims.scrypt pw salt) iv packed).2).length = 16)
    (hctlen : pw ≠ [] →
      ((prims.aeadEnc (prims.scrypt pw salt) iv packed).1).length < 4294967296)
    (hdec : pw ≠ [] → prims.aeadDec (prims.scrypt pw salt) iv
      (prims.aeadEnc (prims.scrypt pw salt) iv packed).2
      (prims.aeadEnc (prims.scrypt pw salt) iv packed).1 = some packed)
    (hy : yieldsPayload r payload) (hcap : 8 * payload.length ≤ r.cap) :
    extractData codec prims r pw = .ok packed := by
  obtain ⟨hne, hpacked⟩ := packPayload_ok codec t f packed hpack
  by_cases hpw : pw = []
  · subst hpw
    have hpp : payload = packed := by rw [hpl]; rfl
    have hplain := extractData_plain codec prims r
      (codec.stringifyMeta (metaOf (packItems t f))) (concatData (packItems t f))
      (metaOf (packItems t f)) payload hml hmeta
      (metaOf_sum _ (packItems_lens t f)) (by rw [hpp, hpacked]) hy hcap []
    rw [hplain, hpp]
  · have hplenc : payload = ENC_MAGIC ++ salt ++ iv ++
        (prims.aeadEnc (prims.scrypt pw salt) iv packed).2 ++
        u32be ((prims.aeadEnc (prims.scrypt pw salt) iv packed).1).length ++
        (prims.aeadEnc (prims.scrypt pw salt) iv packed).1 := by
      rw [hpl]
      simp only [encryptIfNeeded]
      rw [if_neg hpw]
    have hext := extractData_enc codec prims r salt iv
      (prims.aeadEnc (prims.scrypt pw salt) iv packed).2
      (prims.aeadEnc (prims.scrypt pw salt) iv packed).1 payload
      (hsalt hpw) (hiv hpw) (htag hpw) (hctlen hpw) hplenc hy hcap pw
    rw [hext, if_neg hpw, hdec hpw]

/-- Embed-then-extract through the image route recovers the packed
items. -/
theorem imageRoundtrip (codec : JsonCodec) (prims : CryptoPrims)
    (salt iv : List Nat) (rgba : List Nat) (w h : Nat)
    (t : List Nat) (f : Option SFile) (pw packed payload : List Nat)
    (hpack : packPayload codec t f = .ok packed)
    (hmeta : codec.parseMeta (codec.stringifyMeta (metaOf (packItems t f))) =
      some (metaOf (packItems t f)))
    (hml : (codec.stringifyMeta (metaOf (packItems t f))).length < 4294967296)
    (hpl : payload = encryptIfNeeded prims salt iv packed pw)
    (hpbytes : ∀ b ∈ payload, b < 256)
    (hsalt : pw ≠ [] → salt.length = 16)
    (hiv : pw ≠ [] → iv.length = 12)
    (htag : pw ≠ [] → ((prims.aeadEnc (prims.scrypt pw salt) iv packed).2).length = 16)
    (hctlen : pw ≠ [] →
      ((prims.aeadEnc (prims.scrypt pw salt) iv packed).1).length < 4294967296)
    (hdec : pw ≠ [] → prims.aeadDec (prims.scrypt pw salt) iv
      (prims.aeadEnc (prims.scrypt pw salt) iv packed).2
      (prims.aeadEnc (prims.scrypt pw salt) iv packed).1 = some packed)
    (hrgba : rgba.length = 4 * (w * h)) (hbytes : ∀ v ∈ rgba, v < 256)
    (hcap : 8 * payload.length ≤ w * h * 3) :
    imageEmbedRoute codec prims salt iv rgba w h t f pw =
      .ok (writeBits imgOffset payload rgba) ∧
    imageExtractRoute codec prims (writeBits imgOffset payload rgba) w h pw =
      .ok (expectedOut (packItems t f)) := by
  obtain ⟨hne, hpacked⟩ := packPayload_ok codec t f packed hpack
  have hif : ¬(bitsNeeded payload.length > w * h * 3) := by
    unfold bitsNeeded
    omega
  have hembed : embedLSB_RGBA rgba w h payload = (writeBits imgOffset payload rgba, none) := by
    simp only [embedLSB_RGBA]
    rw [if_neg hif]
  have hpc : parseContainer codec packed = .ok (expectedOut (packItems t f)) := by
    rw [hpacked]
    exact parseContainer_packed codec (packItems t f) _ hml hmeta (packItems_lens t f)
  constructor
  · simp only [imageEmbedRoute, hpack, ← hpl, hembed]
  · have hy := imageReader_yields payload rgba w h hrgba hcap hbytes hpbytes
    have hED := extractData_payload codec prims
      (imageReader (writeBits imgOffset payload rgba) w h) salt iv t f pw packed payload
      hpack hmeta hml hpl hsalt hiv htag hctlen hdec hy hcap
    simp only [imageExtractRoute, hED, hpc]

/-- Embed-then-extract through the audio route recovers the packed
items. -/
theorem audioRoundtrip (codec : JsonCodec) (prims : CryptoPrims)
    (salt iv : List Nat) (wav : List Nat) (info : WavInfo)
    (t : List Nat) (f : Option SFile) (pw packed payload : List Nat)
    (hpack : packPayload codec t f = .ok packed)
    (hmeta : codec.parseMeta (codec.stringifyMeta (metaOf (packItems t f))) =
      some (metaOf (packItems t f)))
    (hml : (codec.stringifyMeta (metaOf (packItems t f))).length < 4294967296)
    (hpl : payload = encryptIfNeeded prims salt iv packed pw)
    (hpbytes : ∀ b ∈ payload, b < 256)
    (hsalt : pw ≠ [] → salt.length = 16)
    (hiv : pw ≠ [] → iv.length = 12)
    (htag : pw ≠ [] → ((prims.aeadEnc (prims.scrypt pw salt) iv packed).2).length = 16)
    (hctlen : pw ≠ [] →
      ((prims.aeadEnc (prims.scrypt pw salt) iv packed).1).length < 4294967296)
    (hdec : pw ≠ [] → prims.aeadDec (prims.scrypt pw salt) iv
      (prims.aeadEnc (prims.scrypt pw salt) iv packed).2
      (prims.aeadEnc (prims.scrypt pw salt) iv packed).1 = some packed)
    (hwav : parseWavHeader wav = .ok info)
    (hbps : info.fmt.bitsPerSample = 8 ∨ info.fmt.bitsPerSample = 16)
    (hwlen : info.dataOffset + info.dataLength ≤ wav.length)
    (hwbytes : ∀ v ∈ wav, v < 256)
    (hcap : 8 * payload.length ≤ info.dataLength / (info.fmt.bitsPerSample / 8))
    (hstego : parseWavHeader
      (writeBits (wavOffset info.dataOffset (info.fmt.bitsPerSample / 8)) payload wav) =
      .ok info) :
    audioEmbedRoute codec prims salt iv wav t f pw =
      .ok (writeBits (wavOffset info.dataOffset (info.fmt.bitsPerSample / 8)) payload wav) ∧
    audioExtractRoute codec prims
      (writeBits (wavOffset info.dataOffset (info.fmt.bitsPerSample / 8)) payload wav) pw =
      .ok (expectedOut (packItems t f)) := by
  obtain ⟨hne, hpacked⟩ := packPayload_ok codec t f packed hpack
  have hbpspos : 0 < info.fmt.bitsPerSample / 8 := by
    rcases hbps with hb | hb
    all_goals rw [hb]; omega
  have hif : ¬(bitsNeeded payload.length >
      info.dataLength / (info.fmt.bitsPerSample / 8)) := by
    unfold bitsNeeded
    omega
  have hembed : embedLSB_WavPCM wav payload info.dataOffset info.dataLength
      info.fmt.bitsPerSample =
      (writeBits (wavOffset info.dataOffset (info.fmt.bitsPerSample / 8)) payload wav,
        none) := by
    simp only [embedLSB_WavPCM]
    rw [if_neg hif]
  have hpc : parseContainer codec packed = .ok (expectedOut (packItems t f)) := by
    rw [hpacked]
    exact parseContainer_packed codec (packItems t f) _ hml hmeta (packItems_lens t f)
  constructor
  · simp only [audioEmbedRoute, hpack, ← hpl, hwav, hembed]
  · have hy := audioReader_yields payload wav info.dataOffset
      (info.fmt.bitsPerSample / 8) info.dataLength hbpspos hcap hwlen hwbytes hpbytes
    have hED := extractData_payload codec prims
      (audioReader
        (writeBits (wavOffset info.dataOffset (info.fmt.bitsPerSample / 8)) payload wav)
        info.dataOffset (info.fmt.bitsPerSample / 8)
        (info.dataLength / (info.fmt.bitsPerSample / 8)))
      salt iv t f pw packed payload
      hpack hmeta hml hpl hsalt hiv htag hctlen hdec hy hcap
    simp only [audioExtractRoute, hstego, hED, hpc]

theorem dropWhile_ne_nil (p : Nat → Bool) (l : List Nat)
    (h : ∃ x ∈ l, p x = false) : l.dropWhile p ≠ [] := by
  intro hnil
  rw [List.dropWhile_eq_nil_iff] at hnil
  obtain ⟨x, hx, hpx⟩ := h
  have := hnil x hx
  rw [this] at hpx
  cases hpx

theorem exists_false_dropWhile (p : Nat → Bool) (l : List Nat)
    (h : ∃ x ∈ l, p x = false) : ∃ x ∈ l.dropWhile p, p x = false := by
  induction l with
  | nil => simp at h
  | cons a tl ih =>
    obtain ⟨x, hx, hpx⟩ := h
    by_cases hpa : p a = true
    · rw [List.dropWhile_cons_of_pos hpa]
      apply ih
      rcases List.mem_cons.mp hx with rfl | hxt
      · rw [hpa] at hpx
        cases hpx
      · exact ⟨x, hxt, hpx⟩
    · rw [List.dropWhile_cons_of_neg hpa]
      exact ⟨a, by simp, by simpa using hpa⟩

theorem jsTrim_ne_nil (s : List Nat) (h : ∃ c ∈ s, isJsWhitespace c = false) :
    jsTrim s ≠ [] := by
  unfold jsTrim
  intro hnil
  rw [List.reverse_eq_nil_iff] at hnil
  obtain ⟨x, hx1, hpx1⟩ := exists_false_dropWhile isJsWhitespace s h
  exact dropWhile_ne_nil isJsWhitespace _ ⟨x, by simpa using hx1, hpx1⟩ hnil

theorem jsTrim_nil_of_all (s : List Nat) (h : ∀ c ∈ s, isJsWhitespace c = true) :
    jsTrim s = [] := by
  unfold jsTrim
  rw [List.dropWhile_eq_nil_iff.mpr h]
  rfl

theorem packItems_with_text (t : List Nat) (f : Option SFile)
    (h : ∃ c ∈ t, isJsWhitespace c = false) :
    packItems t f =
      ⟨TEXT_T, MESSAGE_TXT, TEXT_PLAIN, (utf8Encode t).length, utf8Encode t⟩ ::
        packItems [] f := by
  have ht : t ≠ [] := by
    obtain ⟨c, hc, _⟩ := h
    intro hnil
    subst hnil
    simp at hc
  have htrim := jsTrim_ne_nil t h
  unfold packItems
  rw [if_pos ⟨ht, htrim⟩, if_neg (by simp)]
  simp

/-- C2: Capacity boundary with atomicity.  If the payload's bit length
equals the carrier capacity exactly, embedding succeeds (no error); if it
exceeds it by at least one bit, embedding fails with the capacity error
carrying the required and available sizes rounded up to whole KB
(`ceilKB`), and the returned carrier buffer is the input unmodified.  Both
for the image codec (capacity `width*height*3`) and the audio codec
(capacity = number of samples `dataLength / bytesPerSample`). -/
theorem c2_capacity_boundary (rgba payload : List Nat) (w h : Nat)
    (wav : List Nat) (dOff dLen bps : Nat) :
    ((8 * payload.length = w * h * 3 → (embedLSB_RGBA rgba w h payload).2 = none) ∧
     (w * h * 3 < 8 * payload.length →
       embedLSB_RGBA rgba w h payload =
         (rgba, some (JsError.notEnoughCapacity (ceilKB (bitsNeeded payload.length))
           (ceilKB (w * h * 3)))))) ∧
    ((8 * payload.length = dLen / (bps / 8) →
       (embedLSB_WavPCM wav payload dOff dLen bps).2 = none) ∧
     (dLen / (bps / 8) < 8 * payload.length →
       embedLSB_WavPCM wav payload dOff dLen bps =
         (wav, some (JsError.notEnoughWavCapacity (ceilKB (bitsNeeded payload.length))
           (ceilKB (dLen / (bps / 8))))))) := by
  refine ⟨⟨?_, ?_⟩, ?_, ?_⟩
  · intro heq
    simp only [embedLSB_RGBA]
    rw [if_neg (by unfold bitsNeeded; omega)]
  · intro hlt
    simp only [embedLSB_RGBA]
    rw [if_pos (by unfold bitsNeeded; omega)]
  · intro heq
    simp only [embedLSB_WavPCM]
    rw [if_neg (by unfold bitsNeeded; omega)]
  · intro hlt
    simp only [embedLSB_WavPCM]
    rw [if_pos (by unfold bitsNeeded; omega)]

/-- C2 witness: at `width*height*3 = 24` bits, a 3-byte payload embeds
exactly and a 4-byte payload fails with the 1 KB / 1 KB capacity error
leaving the carrier untouched; likewise for a 24-sample 8-bit WAV data
chunk. -/
theorem c2_capacity_boundary_witness :
    ((embedLSB_RGBA (List.replicate 32 5) 8 1 [1, 2, 3]).2 = none ∧
      embedLSB_RGBA (List.replicate 32 5) 8 1 [1, 2, 3, 4] =
        (List.replicate 32 5, some (JsError.notEnoughCapacity 1 1))) ∧
    ((embedLSB_WavPCM (List.replicate 68 5) [1, 2, 3] 44 24 8).2 = none ∧
      embedLSB_WavPCM (List.replicate 68 5) [1, 2, 3, 4] 44 24 8 =
        (List.replicate 68 5, some (JsError.notEnoughWavCapacity 1 1))) := by
  refine ⟨⟨?_, ?_⟩, ?_, ?_⟩
  · exact (c2_capacity_boundary (List.replicate 32 5) [1, 2, 3] 8 1
      (List.replicate 68 5) 44 24 8).1.1 (by decide)
  · exact (c2_capacity_boundary (List.replicate 32 5) [1, 2, 3, 4] 8 1
      (List.replicate 68 5) 44 24 8).1.2 (by decide)
  · exact (c2_capacity_boundary (List.replicate 32 5) [1, 2, 3] 8 1
      (List.replicate 68 5) 44 24 8).2.1 (by decide)
  · exact (c2_capacity_boundary (List.replicate 32 5) [1, 2, 3, 4] 8 1
      (List.replicate 68 5) 44 24 8).2.2 (by decide)

/-- C5: Image LSB addressing and frame condition.  When the capacity
check passes, embedding walks the payload most-significant-bit first
(`payloadBit`), and bit `i` lands in exactly the LSB of the byte at RGBA
offset `4*⌊i/3⌋ + i%3` (`imgOffset`), preserving that byte's upper 7 bits;
every alpha byte (offset ≡ 3 mod 4), every untouched offset, and every
byte beyond the last written offset keeps its original value. -/
theorem c5_image_addressing (rgba payload : List Nat) (w h : Nat)
    (hrgba : rgba.length = 4 * (w * h)) (hbytes : ∀ v ∈ rgba, v < 256)
    (hcap : 8 * payload.length ≤ w * h * 3) :
    (embedLSB_RGBA rgba w h payload).2 = none ∧
    (∀ i, i < 8 * payload.length →
      (embedLSB_RGBA rgba w h payload).1.getD (imgOffset i) 0 &&& 1 =
        payloadBit payload i ∧
      (embedLSB_RGBA rgba w h payload).1.getD (imgOffset i) 0 >>> 1 =
        rgba.getD (imgOffset i) 0 >>> 1) ∧
    (∀ j, j % 4 = 3 →
      (embedLSB_RGBA rgba w h payload).1.getD j 0 = rgba.getD j 0) ∧
    (∀ j, (∀ i, i < 8 * payload.length → imgOffset i ≠ j) →
      (embedLSB_RGBA rgba w h payload).1.getD j 0 = rgba.getD j 0) ∧
    (∀ j, 0 < payload.length → imgOffset (8 * payload.length - 1) < j →
      (embedLSB_RGBA rgba w h payload).1.getD j 0 = rgba.getD j 0) := by
  have hembed : embedLSB_RGBA rgba w h payload =
      (writeBits imgOffset payload rgba, none) := by
    simp only [embedLSB_RGBA]
    rw [if_neg (by unfold bitsNeeded; omega)]
  rw [hembed]
  have hbn : bitsNeeded payload.length = 8 * payload.length := by
    unfold bitsNeeded
    omega
  have hinj : ∀ a b, a < 8 * payload.length → b < 8 * payload.length →
      imgOffset a = imgOffset b → a = b := fun a b _ _ hab => imgOffset_inj a b hab
  have hrange : ∀ a, a < 8 * payload.length → imgOffset a < rgba.length := by
    intro a ha
    rw [hrgba]
    exact imgOffset_lt a (w * h) (by omega)
  have hout : ∀ j, (∀ i, i < 8 * payload.length → imgOffset i ≠ j) →
      (writeBits imgOffset payload rgba).getD j 0 = rgba.getD j 0 := by
    intro j hj
    unfold writeBits
    rw [hbn]
    exact writeBitsN_getD_out _ _ _ _ j hj
  refine ⟨rfl, ?_, ?_, ?_, ?_⟩
  · intro i hi
    have hin : (writeBits imgOffset payload rgba).getD (imgOffset i) 0 =
        lsbWrite (rgba.getD (imgOffset i) 0) (payloadBit payload i) := by
      unfold writeBits
      rw [hbn]
      exact writeBitsN_getD_in _ _ _ _ hinj hrange i hi
    have hx : rgba.getD (imgOffset i) 0 < 256 := hbytes _ (getD_mem _ _ (hrange i hi))
    constructor
    · show (writeBits imgOffset payload rgba).getD (imgOffset i) 0 &&& 1 = _
      rw [hin]
      exact lsbWrite_and_one _ hx _ (payloadBit_lt_two payload i)
    · show (writeBits imgOffset payload rgba).getD (imgOffset i) 0 >>> 1 = _
      rw [hin]
      exact lsbWrite_shiftRight _ hx _ (payloadBit_lt_two payload i)
  · intro j hj
    exact hout j (fun i _ => imgOffset_ne_alpha i j hj)
  · intro j hj
    exact hout j hj
  · intro j hlen hj
    apply hout j
    intro i hi
    by_cases hieq : i = 8 * payload.length - 1
    · subst hieq
      omega
    · have := imgOffset_mono i (8 * payload.length - 1) (by omega)
      omega

/-- C5 witness: a 2×2 RGBA carrier (16 bytes of value 7) and a 1-byte
payload: embedding succeeds and the alpha byte at offset 3 is untouched. -/
theorem c5_image_addressing_witness :
    (embedLSB_RGBA (List.replicate 16 7) 2 2 [170]).2 = none ∧
    (embedLSB_RGBA (List.replicate 16 7) 2 2 [170]).1.getD 3 0 =
      (List.replicate 16 7).getD 3 0 := by
  have h := c5_image_addressing (List.replicate 16 7) [170] 2 2
    (by decide) (by decide) (by decide)
  exact ⟨h.1, h.2.2.1 3 (by decide)⟩

/-- C6: Audio capacity and addressing.  Capacity is
`⌊dataLength / bytesPerSample⌋` bits with one bit per sample: embedding
succeeds exactly when the payload's bit count fits, bit `i` is written
into the LSB of the byte at offset `dataOffset + i * bytesPerSample`
(the first, least-significant byte of sample `i`) leaving its upper bits
and all other bytes unchanged, and the extraction reader reads the LSB at
exactly the same offsets, for both 8- and 16-bit samples. -/
theorem c6_audio_addressing (wav payload : List Nat) (dOff dLen bps : Nat)
    (hbps : bps = 8 ∨ bps = 16)
    (hwlen : dOff + dLen ≤ wav.length) (hwbytes : ∀ v ∈ wav, v < 256) :
    ((embedLSB_WavPCM wav payload dOff dLen bps).2 = none ↔
      8 * payload.length ≤ dLen / (bps / 8)) ∧
    (8 * payload.length ≤ dLen / (bps / 8) →
      ∀ i, i < 8 * payload.length →
        (embedLSB_WavPCM wav payload dOff dLen bps).1.getD (dOff + i * (bps / 8)) 0 &&& 1 =
          payloadBit payload i ∧
        (embedLSB_WavPCM wav payload dOff dLen bps).1.getD (dOff + i * (bps / 8)) 0 >>> 1 =
          wav.getD (dOff + i * (bps / 8)) 0 >>> 1) ∧
    (8 * payload.length ≤ dLen / (bps / 8) →
      ∀ j, (∀ i, i < 8 * payload.length → dOff + i * (bps / 8) ≠ j) →
        (embedLSB_WavPCM wav payload dOff dLen bps).1.getD j 0 = wav.getD j 0) ∧
    ((audioReader wav dOff (bps / 8) (dLen / (bps / 8))).cap = dLen / (bps / 8)) ∧
    (∀ t2, (audioReader wav dOff (bps / 8) (dLen / (bps / 8))).bitAt t2 =
      wav.getD (dOff + t2 * (bps / 8)) 0 &&& 1) ∧
    (∀ s n, s + 8 * n ≤ dLen / (bps / 8) →
      readBytesLoop (audioReader wav dOff (bps / 8) (dLen / (bps / 8))) s n =
        .ok ((List.range n).map
          (fun i => byteFromBits (audioReader wav dOff (bps / 8) (dLen / (bps / 8)))
            (s + 8 * i)), s + 8 * n)) := by
  have hbpspos : 0 < bps / 8 := by
    rcases hbps with hb | hb
    all_goals rw [hb]; omega
  have hbn : ∀ m : Nat, bitsNeeded m = 8 * m := by
    intro m
    unfold bitsNeeded
    omega
  refine ⟨?_, ?_, ?_, rfl, fun t2 => rfl, ?_⟩
  · by_cases hc : bitsNeeded payload.length > dLen / (bps / 8)
    · simp only [embedLSB_WavPCM]
      rw [if_pos hc]
      rw [hbn] at hc
      simp
      omega
    · simp only [embedLSB_WavPCM]
      rw [if_neg hc]
      rw [hbn] at hc
      simp
      omega
  · intro hcap i hi
    have hembed : embedLSB_WavPCM wav payload dOff dLen bps =
        (writeBits (wavOffset dOff (bps / 8)) payload wav, none) := by
      simp only [embedLSB_WavPCM]
      rw [if_neg (by rw [hbn]; omega)]
    rw [hembed]
    have hinj : ∀ a b, a < 8 * payload.length → b < 8 * payload.length →
        wavOffset dOff (bps / 8) a = wavOffset dOff (bps / 8) b → a = b :=
      fun a b _ _ hab => wavOffset_inj dOff (bps / 8) a b hbpspos hab
    have hrange : ∀ a, a < 8 * payload.length →
        wavOffset dOff (bps / 8) a < wav.length := by
      intro a ha
      exact wavOffset_lt dOff (bps / 8) a wav.length dLen hbpspos (by omega) hwlen
    have hin : (writeBits (wavOffset dOff (bps / 8)) payload wav).getD
        (dOff + i * (bps / 8)) 0 =
        lsbWrite (wav.getD (dOff + i * (bps / 8)) 0) (payloadBit payload i) := by
      have h0 := writeBitsN_getD_in (wavOffset dOff (bps / 8)) payload wav
        (8 * payload.length) hinj hrange i hi
      unfold writeBits
      rw [hbn]
      simpa [wavOffset] using h0
    have hx : wav.getD (dOff + i * (bps / 8)) 0 < 256 := by
      apply hwbytes
      apply getD_mem
      have := hrange i hi
      simpa [wavOffset] using this
    constructor
    · rw [hin]
      exact lsbWrite_and_one _ hx _ (payloadBit_lt_two payload i)
    · rw [hin]
      exact lsbWrite_shiftRight _ hx _ (payloadBit_lt_two payload i)
  · intro hcap j hj
    have hembed : embedLSB_WavPCM wav payload dOff dLen bps =
        (writeBits (wavOffset dOff (bps / 8)) payload wav, none) := by
      simp only [embedLSB_WavPCM]
      rw [if_neg (by rw [hbn]; omega)]
    rw [hembed]
    unfold writeBits
    rw [hbn]
    apply writeBitsN_getD_out
    intro i hi
    have := hj i hi
    simpa [wavOffset] using this
  · intro s n hsn
    exact readBytesLoop_ok _ n s hsn

/-- C6 witness: a tiny 8-bit WAV data region (capacity 8 samples at
offset 4) carrying one byte. -/
theorem c6_audio_addressing_witness :
    ((embedLSB_WavPCM (List.replicate 12 9) [165] 4 8 8).2 = none ↔
      8 * 1 ≤ 8 / (8 / 8)) ∧
    (embedLSB_WavPCM (List.replicate 12 9) [165] 4 8 8).1.getD 0 0 =
      (List.replicate 12 9).getD 0 0 := by
  have h := c6_audio_addressing (List.replicate 12 9) [165] 4 8 8
    (Or.inl rfl) (by decide) (by decide)
  refine ⟨by simpa using h.1, ?_⟩
  exact h.2.2.1 (by decide) 0 (by intro i hi; omega)

/-- C9: Bitstream reader contract for both carrier readers: `readBytes(n)`
from cursor `s` succeeds exactly when `s + 8*n` stays within
`capacityBits`, in which case it returns `n` bytes — byte `i` assembled
most-significant-bit first from the 8 consecutive carrier bits starting
at `s + 8*i` — and advances the cursor to exactly `s + 8*n`; otherwise it
fails with the carrier's out-of-capacity error and returns no bytes. -/
theorem c9_reader_contract (data wav : List Nat) (w h dOff bps ns : Nat) :
    (∀ s n, s + 8 * n ≤ w * h * 3 →
      readBytesLoop (imageReader data w h) s n =
        .ok ((List.range n).map (fun i => byteFromBits (imageReader data w h) (s + 8 * i)),
          s + 8 * n)) ∧
    (∀ s n, 0 < n → w * h * 3 < s + 8 * n →
      readBytesLoop (imageReader data w h) s n = .error .outOfCapacity) ∧
    (∀ s n, s + 8 * n ≤ ns →
      readBytesLoop (audioReader wav dOff bps ns) s n =
        .ok ((List.range n).map
          (fun i => byteFromBits (audioReader wav dOff bps ns) (s + 8 * i)), s + 8 * n)) ∧
    (∀ s n, 0 < n → ns < s + 8 * n →
      readBytesLoop (audioReader wav dOff bps ns) s n = .error .outOfAudioCapacity) ∧
    (∀ r : BitReader, ∀ s, byteFromBits r s =
      (r.bitAt s <<< 7) ||| ((r.bitAt (s + 1) <<< 6) ||| ((r.bitAt (s + 2) <<< 5) |||
        ((r.bitAt (s + 3) <<< 4) ||| ((r.bitAt (s + 4) <<< 3) ||| ((r.bitAt (s + 5) <<< 2) |||
          ((r.bitAt (s + 6) <<< 1) ||| ((r.bitAt (s + 7) <<< 0) ||| 0)))))))) := by
  refine ⟨?_, ?_, ?_, ?_, ?_⟩
  · intro s n hsn
    exact readBytesLoop_ok _ n s hsn
  · intro s n hn hsn
    exact readBytesLoop_err _ n s hsn hn
  · intro s n hsn
    exact readBytesLoop_ok _ n s hsn
  · intro s n hn hsn
    exact readBytesLoop_err _ n s hsn hn
  · intro r s
    exact asm8_expand r.bitAt s

/-- C9 witness: a 4-pixel image reader (capacity 12 bits) reads one byte
from cursor 0 and fails on a second byte; same shape for a 12-sample
audio reader. -/
theorem c9_reader_contract_witness :
    readBytesLoop (imageReader (List.replicate 16 255) 2 2 ) 0 1 =
      .ok ([byteFromBits (imageReader (List.replicate 16 255) 2 2) 0], 8) ∧
    readBytesLoop (imageReader (List.replicate 16 255) 2 2) 8 1 = .error .outOfCapacity := by
  have h := c9_reader_contract (List.replicate 16 255) (List.replicate 16 255) 2 2 0 1 12
  constructor
  · have h1 := h.1 0 1 (by decide)
    simpa using h1
  · exact h.2.1 8 1 (by decide) (by decide)

/-- C10: A secret text consisting only of (ECMAScript) whitespace is
treated as absent — packing it with no secret file fails with the
no-secret-data error — while a text with at least one non-whitespace
character is packed in full, untrimmed, as the first item, named
`message.txt` with mime `text/plain` and data the UTF-8 bytes of the
whole text. -/
theorem c10_whitespace_packing (codec : JsonCodec) (t : List Nat) (f : Option SFile) :
    ((∀ c ∈ t, isJsWhitespace c = true) →
      packPayload codec t none = .error .noSecretData) ∧
    ((∃ c ∈ t, isJsWhitespace c = false) →
      packItems t f =
        ⟨TEXT_T, MESSAGE_TXT, TEXT_PLAIN, (utf8Encode t).length, utf8Encode t⟩ ::
          packItems [] f ∧
      packPayload codec t f = .ok (STEG_MAGIC ++
        u32be (codec.stringifyMeta (metaOf (packItems t f))).length ++
        codec.stringifyMeta (metaOf (packItems t f)) ++ concatData (packItems t f))) := by
  constructor
  · intro hws
    have htrim : jsTrim t = [] := jsTrim_nil_of_all t hws
    have hitems : packItems t none = [] := by
      unfold packItems
      rw [if_neg (by intro hc; exact hc.2 htrim)]
      rfl
    simp only [packPayload, hitems]
    rw [if_pos trivial]
  · intro hex
    have hcons := packItems_with_text t f hex
    refine ⟨hcons, ?_⟩
    have hne : packItems t f ≠ [] := by
      rw [hcons]
      simp
    simp only [packPayload]
    rw [if_neg hne]

/-- C10 witness: packing the whitespace-only text (space, tab, newline)
with no file fails; the text "␠h" (a space then `h`) is packed in full,
untrimmed. -/
theorem c10_whitespace_packing_witness :
    packPayload jsonCodec [32, 9, 10] none = .error .noSecretData ∧
    packItems [32, 104] none =
      [⟨TEXT_T, MESSAGE_TXT, TEXT_PLAIN, (utf8Encode [32, 104]).length,
        utf8Encode [32, 104]⟩] := by
  constructor
  · exact (c10_whitespace_packing jsonCodec [32, 9, 10] none).1 (by decide)
  · have h := (c10_whitespace_packing jsonCodec [32, 104] none).2
      ⟨104, by simp, by decide⟩
    rw [h.1]
    rfl

/-- C3 (amended): `parseContainer` fails with the magic-mismatch error
when the first 6 bytes differ from `STEGv1`, and with the
corrupted-metadata error when the metadata bytes — after clamping the
declared `metadataLength` to the buffer, as `Buffer.slice` does — fail
JSON parsing; when the metadata parses, it returns the full item list,
with each item's bytes the (clamped, possibly truncated) slice of the
declared length.  Declared lengths running past the buffer are clamped,
not rejected. -/
theorem c3_parse_amended (codec : JsonCodec) (buf : List Nat) :
    (listSlice buf 0 6 ≠ STEG_MAGIC → parseContainer codec buf = .error .magicMismatch) ∧
    (∀ ml, listSlice buf 0 6 = STEG_MAGIC →
      readU32BE (listSlice buf 6 10) = .ok ml →
      codec.parseMeta (listSlice buf 10 (10 + ml)) = none →
      parseContainer codec buf = .error .corruptedMetadata) ∧
    (∀ ml meta, listSlice buf 0 6 = STEG_MAGIC →
      readU32BE (listSlice buf 6 10) = .ok ml →
      codec.parseMeta (listSlice buf 10 (10 + ml)) = some meta →
      parseContainer codec buf = .ok (sliceItems buf (10 + ml) meta.items)) := by
  refine ⟨?_, ?_, ?_⟩
  · intro hne
    simp only [parseContainer]
    rw [if_pos hne]
  · intro ml hmag h32 hnone
    simp only [parseContainer, hmag, ne_eq, eq_self_iff_true, not_true, if_false,
      ite_false, h32, hnone]
  · intro ml meta hmag h32 hsome
    simp only [parseContainer, hmag, ne_eq, eq_self_iff_true, not_true, if_false,
      ite_false, h32, hsome]

/-- C3 witness: a container whose single item declares length 9 with only
2 data bytes left; the magic and metadata checks pass and parsing
returns the item with its truncated 2-byte slice. -/
theorem c3_parse_amended_witness :
    parseContainer jsonCodec
      (STEG_MAGIC ++ u32be 69 ++
        stringifyMetaJson ⟨1, [⟨TEXT_T, [109], TEXT_PLAIN, 9⟩]⟩ ++ [65, 66]) =
      .ok [OutItem.text [109] TEXT_PLAIN [65, 66]] := by
  have h := (c3_parse_amended jsonCodec
    (STEG_MAGIC ++ u32be 69 ++
      stringifyMetaJson ⟨1, [⟨TEXT_T, [109], TEXT_PLAIN, 9⟩]⟩ ++ [65, 66])).2.2
    69 ⟨1, [⟨TEXT_T, [109], TEXT_PLAIN, 9⟩]⟩ (by decide) (by exact rfl) (by exact rfl)
  rw [h]
  exact rfl

/-- C7 (amended): WAV validation rejects — with the specific
`FormatError` and before any carrier byte is touched (the embed route
returns the header error and never reaches the bit-writing stage) — any
carrier whose `0x7f`-masked bytes fail the RIFF/WAVE check (Node's
`"ascii"` decoding strips the high bit, so raw bytes are compared only
modulo their high bit), any fmt chunk declaring `audioFormat ≠ 1`, any
bit depth outside {8, 16}, and any missing (or empty) `data` chunk. -/
theorem c7_wav_rejection_amended (codec : JsonCodec) (prims : CryptoPrims)
    (salt iv : List Nat) (buf : List Nat) (t : List Nat) (f : Option SFile)
    (pw packed : List Nat) (hpack : packPayload codec t f = .ok packed) :
    ((ascii4 buf 0 ≠ RIFF_ID ∨ ascii4 buf 8 ≠ WAVE_ID) →
      parseWavHeader buf = .error .notWav) ∧
    (∀ fmt dat, ascii4 buf 0 = RIFF_ID → ascii4 buf 8 = WAVE_ID →
      scanChunks buf = .ok (some fmt, dat) → fmt.audioFormat ≠ 1 →
      parseWavHeader buf = .error .notPcm) ∧
    (∀ fmt dat, ascii4 buf 0 = RIFF_ID → ascii4 buf 8 = WAVE_ID →
      scanChunks buf = .ok (some fmt, dat) → fmt.audioFormat = 1 →
      fmt.bitsPerSample ≠ 8 → fmt.bitsPerSample ≠ 16 →
      parseWavHeader buf = .error (.unsupportedBitDepth fmt.bitsPerSample)) ∧
    (∀ fmt, ascii4 buf 0 = RIFF_ID → ascii4 buf 8 = WAVE_ID →
      scanChunks buf = .ok (some fmt, none) → fmt.audioFormat = 1 →
      (fmt.bitsPerSample = 8 ∨ fmt.bitsPerSample = 16) →
      parseWavHeader buf = .error .missingDataChunk) ∧
    (∀ e, parseWavHeader buf = .error e →
      audioEmbedRoute codec prims salt iv buf t f pw = .error e) := by
  refine ⟨?_, ?_, ?_, ?_, ?_⟩
  · intro hor
    simp only [parseWavHeader]
    rw [if_pos hor]
  · intro fmt dat hr hw hscan haf
    simp only [parseWavHeader, hscan]
    rw [if_neg (by simp [hr, hw]), if_pos haf]
  · intro fmt dat hr hw hscan haf h8 h16
    simp only [parseWavHeader, hscan]
    rw [if_neg (by simp [hr, hw]), if_neg (by simp [haf]), if_pos ⟨h8, h16⟩]
  · intro fmt hr hw hscan haf hbits
    simp only [parseWavHeader, hscan]
    rw [if_neg (by simp [hr, hw]), if_neg (by simp [haf]),
      if_neg (by rcases hbits with hb | hb <;> simp [hb])]
  · intro e he
    simp only [audioEmbedRoute, hpack, he]

/-- C8: Encryption envelope gating.  Encrypting with an empty password
returns the container bytes unchanged; with a non-empty password the
output is exactly `ENCv1 | salt | iv | tag | u32(ctLen) | ciphertext`
(53 bytes of framing plus the ciphertext, given the 16-byte salt, 12-byte
IV and 16-byte GCM tag produced by the crypto layer); and extracting an
`ENCv1` envelope with an empty password fails with the password-required
`AuthError` before any decryption is attempted. -/
theorem c8_envelope_gating (codec : JsonCodec) (prims : CryptoPrims) (r : BitReader)
    (salt iv buf pw tag ct p : List Nat)
    (hsalt : salt.length = 16) (hiv : iv.length = 12) (htag : tag.length = 16)
    (hct : ct.length < 4294967296)
    (hp : p = ENC_MAGIC ++ salt ++ iv ++ tag ++ u32be ct.length ++ ct)
    (hy : yieldsPayload r p) (hcap : 8 * p.length ≤ r.cap) :
    encryptIfNeeded prims salt iv buf [] = buf ∧
    (pw ≠ [] → encryptIfNeeded prims salt iv buf pw =
      ENC_MAGIC ++ salt ++ iv ++ (prims.aeadEnc (prims.scrypt pw salt) iv buf).2 ++
        u32be ((prims.aeadEnc (prims.scrypt pw salt) iv buf).1).length ++
        (prims.aeadEnc (prims.scrypt pw salt) iv buf).1) ∧
    (pw ≠ [] → ((prims.aeadEnc (prims.scrypt pw salt) iv buf).2).length = 16 →
      (encryptIfNeeded prims salt iv buf pw).length =
        53 + ((prims.aeadEnc (prims.scrypt pw salt) iv buf).1).length) ∧
    extractData codec prims r [] = .error .passwordRequired := by
  refine ⟨rfl, ?_, ?_, ?_⟩
  · intro hpw
    simp only [encryptIfNeeded]
    rw [if_neg hpw]
  · intro hpw htg
    simp only [encryptIfNeeded]
    rw [if_neg hpw]
    simp [ENC_MAGIC, u32be, List.length_append, hsalt, hiv, htg]
    omega
  · have hext := extractData_enc codec prims r salt iv tag ct p
      hsalt hiv htag hct hp hy hcap []
    rw [hext, if_pos rfl]

/-- C4: Authenticated-decryption failure discipline.  Whenever GCM
decryption of the recovered envelope fails — which, by the AEAD contract
of `aeadDec`, is the case for any password other than the one used to
encrypt and for any tampered ciphertext or authentication tag —
extraction fails with the single `authenticationFailed` error (the same
error value in every failing scenario, so wrong password and tampering
are indistinguishable) and never returns an item list. -/
theorem c4_auth_failure (codec : JsonCodec) (prims : CryptoPrims) (r : BitReader)
    (salt iv tag ct p pw : List Nat)
    (hsalt : salt.length = 16) (hiv : iv.length = 12) (htag : tag.length = 16)
    (hct : ct.length < 4294967296)
    (hp : p = ENC_MAGIC ++ salt ++ iv ++ tag ++ u32be ct.length ++ ct)
    (hy : yieldsPayload r p) (hcap : 8 * p.length ≤ r.cap)
    (hpw : pw ≠ [])
    (hdec : prims.aeadDec (prims.scrypt pw salt) iv tag ct = none) :
    extractData codec prims r pw = .error .authenticationFailed ∧
    ∀ items, extractData codec prims r pw ≠ .ok items := by
  have hext := extractData_enc codec prims r salt iv tag ct p
    hsalt hiv htag hct hp hy hcap pw
  refine ⟨?_, ?_⟩
  · rw [hext, if_neg hpw, hdec]
  · intro items h
    rw [hext, if_neg hpw, hdec] at h
    exact absurd h (by simp)

/-- C1 (amended): Round-trip identity up to the parser's presentation.
For any secret items packed from (text, file) input and any image or
audio carrier with capacity at least the bit length of the (optionally
encrypted) payload, extracting with the same password from the embedded
carrier returns the items with the same name and mime type, in the same
order; kind and content follow the parser's actual presentation
(`expectedOut`): an item is classified text iff `t = "text" ∨ mime =
"text/plain"` — so a FILE item with mime `text/plain` flips to kind
TEXT — a text-classified item's content is the LOSSY Node UTF-8
decoding of its exact bytes (the identity on valid UTF-8, hence on any
genuinely packed text item; U+FFFD replacement otherwise), and a
file-classified item's content is the lossless base64 encoding of its
exact bytes.  The JSON and AEAD collaborators enter through their
contracts (`hmeta`, `hdec`). -/
theorem c1_roundtrip_amended (codec : JsonCodec) (prims : CryptoPrims)
    (salt iv rgba : List Nat) (w h : Nat) (wav : List Nat) (info : WavInfo)
    (t : List Nat) (f : Option SFile) (pw packed payload : List Nat)
    (hpack : packPayload codec t f = .ok packed)
    (hmeta : codec.parseMeta (codec.stringifyMeta (metaOf (packItems t f))) =
      some (metaOf (packItems t f)))
    (hml : (codec.stringifyMeta (metaOf (packItems t f))).length < 4294967296)
    (hpl : payload = encryptIfNeeded prims salt iv packed pw)
    (hpbytes : ∀ b ∈ payload, b < 256)
    (hsalt : pw ≠ [] → salt.length = 16)
    (hiv : pw ≠ [] → iv.length = 12)
    (htag : pw ≠ [] → ((prims.aeadEnc (prims.scrypt pw salt) iv packed).2).length = 16)
    (hctlen : pw ≠ [] →
      ((prims.aeadEnc (prims.scrypt pw salt) iv packed).1).length < 4294967296)
    (hdec : pw ≠ [] → prims.aeadDec (prims.scrypt pw salt) iv
      (prims.aeadEnc (prims.scrypt pw salt) iv packed).2
      (prims.aeadEnc (prims.scrypt pw salt) iv packed).1 = some packed)
    (hrgba : rgba.length = 4 * (w * h)) (hbytes : ∀ v ∈ rgba, v < 256)
    (hcapi : 8 * payload.length ≤ w * h * 3)
    (hwav : parseWavHeader wav = .ok info)
    (hbps : info.fmt.bitsPerSample = 8 ∨ info.fmt.bitsPerSample = 16)
    (hwlen : info.dataOffset + info.dataLength ≤ wav.length)
    (hwbytes : ∀ v ∈ wav, v < 256)
    (hcapa : 8 * payload.length ≤ info.dataLength / (info.fmt.bitsPerSample / 8))
    (hstego : parseWavHeader
      (writeBits (wavOffset info.dataOffset (info.fmt.bitsPerSample / 8)) payload wav) =
      .ok info) :
    (imageEmbedRoute codec prims salt iv rgba w h t f pw =
        .ok (writeBits imgOffset payload rgba) ∧
      imageExtractRoute codec prims (writeBits imgOffset payload rgba) w h pw =
        .ok (expectedOut (packItems t f))) ∧
    (audioEmbedRoute codec prims salt iv wav t f pw =
        .ok (writeBits (wavOffset info.dataOffset (info.fmt.bitsPerSample / 8)) payload wav) ∧
      audioExtractRoute codec prims
        (writeBits (wavOffset info.dataOffset (info.fmt.bitsPerSample / 8)) payload wav) pw =
        .ok (expectedOut (packItems t f))) :=
  ⟨imageRoundtrip codec prims salt iv rgba w h t f pw packed payload
      hpack hmeta hml hpl hpbytes hsalt hiv htag hctlen hdec hrgba hbytes hcapi,
    audioRoundtrip codec prims salt iv wav info t f pw packed payload
      hpack hmeta hml hpl hpbytes hsalt hiv htag hctlen hdec
      hwav hbps hwlen hwbytes hcapa hstego⟩

theorem take_set_of_le (l : List Nat) (j k v : Nat) (h : k ≤ j) :
    (l.set j v).take k = l.take k := by
  apply List.ext_getElem?
  intro i
  rw [List.getElem?_take, List.getElem?_take]
  by_cases hik : i < k
  · rw [if_pos hik, if_pos hik, List.getElem?_set_ne (by omega)]
  · rw [if_neg hik, if_neg hik]

theorem writeBitsN_take (off : Nat → Nat) (p buf : List Nat) (n k : Nat)
    (hoff : ∀ i, i < n → k ≤ off i) :
    (writeBitsN off p buf n).take k = buf.take k := by
  induction n with
  | zero => rfl
  | succ n ih =>
    rw [writeBitsN_succ, take_set_of_le _ _ _ _ (hoff n (Nat.lt_succ_self n))]
    exact ih (fun i hi => hoff i (Nat.lt_succ_of_lt hi))

theorem simpleWavHeaderB_length (b n : Nat) : (simpleWavHeaderB b n).length = 44 := rfl

/-- `parseWavHeader` on a simple-header WAV with any data contents:
mono 8-bit PCM, data chunk of `n` bytes at offset 44. -/
theorem parseWavHeader_simpleWavB (b n : Nat) (d : List Nat)
    (hb : b &&& 0x7f = 82) (hd : d.length = n) (hn : 0 < n) (hn32 : n < 4294967296) :
    parseWavHeader (simpleWavHeaderB b n ++ d) = .ok ⟨44, n, ⟨1, 1, 8000, 8000, 1, 8⟩⟩ := by
  have hbuflen : (simpleWavHeaderB b n ++ d).length = 44 + n := by
    rw [List.length_append, simpleWavHeaderB_length, hd]
  have hriff : ascii4 (simpleWavHeaderB b n ++ d) 0 = RIFF_ID := by
    show [b &&& 127, 73 &&& 127, 70 &&& 127, 70 &&& 127] = RIFF_ID
    rw [hb]
    rfl
  have hwave : ascii4 (simpleWavHeaderB b n ++ d) 8 = WAVE_ID := rfl
  have hfmtid : ascii4 (simpleWavHeaderB b n ++ d) 12 = FMT_ID := rfl
  have hdataid : ascii4 (simpleWavHeaderB b n ++ d) 36 = DATA_ID := rfl
  have hfmt_ne_data : ¬(ascii4 (simpleWavHeaderB b n ++ d) 36 = FMT_ID) := by
    rw [hdataid]
    decide
  have hsize16 : readU32LEat (simpleWavHeaderB b n ++ d) 16 = 16 := rfl
  have hsizen : readU32LEat (simpleWavHeaderB b n ++ d) 40 = n := by
    have h40 : (simpleWavHeaderB b n ++ d).getD 40 0 = n % 256 := rfl
    have h41 : (simpleWavHeaderB b n ++ d).getD 41 0 = n / 256 % 256 := rfl
    have h42 : (simpleWavHeaderB b n ++ d).getD 42 0 = n / 65536 % 256 := rfl
    have h43 : (simpleWavHeaderB b n ++ d).getD 43 0 = n / 16777216 % 256 := rfl
    unfold readU32LEat
    rw [h40, h41, h42, h43]
    omega
  have hfields : readFmtFields (simpleWavHeaderB b n ++ d) 20 =
      .ok ⟨1, 1, 8000, 8000, 1, 8⟩ := by
    unfold readFmtFields readU16LEx readU32LEx
    rw [hbuflen]
    rw [if_pos (by omega), if_pos (by omega), if_pos (by omega), if_pos (by omega),
      if_pos (by omega), if_pos (by omega)]
    exact rfl
  have hscan : scanChunks (simpleWavHeaderB b n ++ d) =
      .ok (some ⟨1, 1, 8000, 8000, 1, 8⟩, some (44, n)) := by
    unfold scanChunks
    rw [hbuflen]
    -- first iteration: the fmt chunk at offset 12
    rw [show (44 + n + 1 : Nat) = (44 + n) + 1 from rfl]
    simp only [scanChunksF]
    rw [hbuflen, if_pos (by omega), hsize16]
    rw [if_pos (by omega : 12 + 8 + 16 ≤ 44 + n), if_pos hfmtid, hfields]
    -- second iteration: the data chunk at offset 36
    rw [show (44 + n : Nat) = (43 + n) + 1 by omega]
    simp only [scanChunksF]
    rw [hbuflen, if_pos (by omega), hsizen]
    rw [if_pos (by omega : 36 + 8 + n ≤ 44 + n), if_neg hfmt_ne_data, if_pos hdataid]
    -- third iteration: past the end
    rw [show (43 + n : Nat) = (42 + n) + 1 by omega]
    simp only [scanChunksF]
    rw [hbuflen, if_neg (by omega)]
  simp only [parseWavHeader, hscan]
  rw [if_neg (by simp [hriff, hwave])]
  rw [if_neg (by simp), if_neg (by simp)]
  rw [if_neg (by omega)]

/-- Embedding through `wavOffset 44 1` touches only bytes at offsets
≥ 44, so the stego carrier keeps the 44-byte header and parses to the
same info. -/
theorem parseWavHeader_stego_simpleWavB (b n : Nat) (p d : List Nat)
    (hb : b &&& 0x7f = 82) (hd : d.length = n) (hn : 0 < n) (hn32 : n < 4294967296) :
    parseWavHeader (writeBits (wavOffset 44 1) p (simpleWavHeaderB b n ++ d)) =
      .ok ⟨44, n, ⟨1, 1, 8000, 8000, 1, 8⟩⟩ := by
  have hlen : (writeBits (wavOffset 44 1) p (simpleWavHeaderB b n ++ d)).length = 44 + n := by
    unfold writeBits
    rw [writeBitsN_length, List.length_append, simpleWavHeaderB_length, hd]
  have htake : (writeBits (wavOffset 44 1) p (simpleWavHeaderB b n ++ d)).take 44 =
      simpleWavHeaderB b n := by
    unfold writeBits
    rw [writeBitsN_take _ _ _ _ 44 (fun i _ => by unfold wavOffset; omega)]
    exact take_append_of_len _ _ 44 (simpleWavHeaderB_length b n)
  have hsplit : writeBits (wavOffset 44 1) p (simpleWavHeaderB b n ++ d) =
      simpleWavHeaderB b n ++
        (writeBits (wavOffset 44 1) p (simpleWavHeaderB b n ++ d)).drop 44 := by
    conv_lhs => rw [← List.take_append_drop 44
      (writeBits (wavOffset 44 1) p (simpleWavHeaderB b n ++ d))]
    rw [htake]
  rw [hsplit]
  apply parseWavHeader_simpleWavB b n _ hb _ hn hn32
  rw [List.length_drop, hlen]
  omega

/-- C1 counterexample: the claim as stated — extracted items equal the
input items in KIND and BYTE CONTENT — is false.  A secret FILE item
with mime `text/plain` and the single content byte `0xFF` (packed with
tag `"file"`, first conjunct) round-trips through the audio codec to an
item of kind TEXT, because `parseContainer` classifies items by
`t = "text" ∨ mime = "text/plain"`, and its content comes back as
U+FFFD (65533), not `0xFF`, because the text presentation
`data.toString("utf8")` corrupts non-UTF-8 bytes. -/
theorem c1_counterexample :
    packItems [] (some cexFile) = [⟨FILE_T, [97], TEXT_PLAIN, 1, [255]⟩] ∧
    audioEmbedRoute jsonCodec trivPrims [] [] cexWavGood [] (some cexFile) [] =
      .ok (writeBits (wavOffset 44 1) cexPacked cexWavGood) ∧
    audioExtractRoute jsonCodec trivPrims
      (writeBits (wavOffset 44 1) cexPacked cexWavGood) [] =
      .ok [OutItem.text [97] TEXT_PLAIN [65533]] := by
  have hrt := audioRoundtrip jsonCodec trivPrims [] [] cexWavGood
    ⟨44, 640, ⟨1, 1, 8000, 8000, 1, 8⟩⟩ [] (some cexFile) [] cexPacked cexPacked
    (by exact rfl)
    (by exact rfl)
    (by decide)
    (by exact rfl)
    (by decide)
    (fun hc => absurd rfl hc) (fun hc => absurd rfl hc) (fun hc => absurd rfl hc)
    (fun hc => absurd rfl hc) (fun hc => absurd rfl hc)
    (parseWavHeader_simpleWavB 82 640 (List.replicate 640 0)
      (by decide) (by decide) (by decide) (by decide))
    (Or.inl rfl)
    (by decide)
    (by decide)
    (by decide)
    (parseWavHeader_stego_simpleWavB 82 640 cexPacked (List.replicate 640 0)
      (by decide) (by decide) (by decide) (by decide))
  refine ⟨by decide, hrt.1, ?_⟩
  have h2 := hrt.2
  rw [show expectedOut (packItems [] (some cexFile)) =
    [OutItem.text [97] TEXT_PLAIN [65533]] from by decide] at h2
  exact h2

/-- C7 counterexample: the claim as stated — every audio carrier whose
bytes are not a RIFF/WAVE container is rejected with a `FormatError` —
is false.  `cexWavBad` starts with byte 0xD2 ≠ `R` (first conjunct), yet
embedding SUCCEEDS, because the magic comparison goes through Node's
`"ascii"` decoding, which masks every byte with 0x7f before comparing. -/
theorem c7_counterexample :
    cexWavBad.take 4 ≠ RIFF_ID ∧
    audioEmbedRoute jsonCodec trivPrims [] [] cexWavBad [] (some cexFile) [] =
      .ok (writeBits (wavOffset 44 1) cexPacked cexWavBad) := by
  constructor
  · decide
  · have hpack : packPayload jsonCodec [] (some cexFile) = .ok cexPacked := by
      exact rfl
    have hwav : parseWavHeader cexWavBad = .ok ⟨44, 640, ⟨1, 1, 8000, 8000, 1, 8⟩⟩ :=
      parseWavHeader_simpleWavB 210 640 (List.replicate 640 0)
        (by decide) (by decide) (by decide) (by decide)
    have hpl : encryptIfNeeded trivPrims [] [] cexPacked [] = cexPacked := rfl
    have hembed : embedLSB_WavPCM cexWavBad cexPacked 44 640 8 =
        (writeBits (wavOffset 44 1) cexPacked cexWavBad, none) := by
      simp only [embedLSB_WavPCM]
      rw [if_neg (by decide)]
    simp only [audioEmbedRoute, hpack, hwav, hpl, hembed]

/-- C3 counterexample: the claim as stated — parse fails with a
`FormatError` when an item's declared length runs past the remaining
buffer — is false.  This container's single item declares length 9 with
only 2 data bytes remaining (the buffer is 81 bytes, the declared item
would end at byte 88), yet `parseContainer` returns the item with
truncated content instead of failing. -/
theorem c3_counterexample :
    (STEG_MAGIC ++ u32be 69 ++
      stringifyMetaJson ⟨1, [⟨TEXT_T, [109], TEXT_PLAIN, 9⟩]⟩ ++ [65, 66]).length = 81 ∧
    81 < 10 + 69 + 9 ∧
    parseContainer jsonCodec
      (STEG_MAGIC ++ u32be 69 ++
        stringifyMetaJson ⟨1, [⟨TEXT_T, [109], TEXT_PLAIN, 9⟩]⟩ ++ [65, 66]) =
      .ok [OutItem.text [109] TEXT_PLAIN [65, 66]] := by
  refine ⟨by decide, by decide, by exact rfl⟩

/-- C8 witness: empty-password encryption is the identity on a concrete
container, and extracting the concrete `ENCv1` envelope with an empty
password fails with the password-required error. -/
theorem c8_envelope_gating_witness :
    encryptIfNeeded trivPrims (List.replicate 16 3) (List.replicate 12 4) [1, 2] [] =
      [1, 2] ∧
    extractData jsonCodec trivPrims (listReader c8env) [] = .error .passwordRequired := by
  have h := c8_envelope_gating jsonCodec trivPrims (listReader c8env)
    (List.replicate 16 3) (List.replicate 12 4) [1, 2] [112] (List.replicate 16 7) [9] c8env
    (by decide) (by decide) (by decide) (by decide) (by exact rfl)
    (by unfold yieldsPayload; decide) (by decide)
  exact ⟨h.1, h.2.2.2⟩

/-- C4 witness: extracting the concrete envelope whose tag fails GCM
verification (under `trivPrims`) with a non-empty password yields the
authentication-failure error. -/
theorem c4_auth_failure_witness :
    extractData jsonCodec trivPrims (listReader c4env) [112] =
      .error .authenticationFailed := by
  have h := c4_auth_failure jsonCodec trivPrims (listReader c4env)
    (List.replicate 16 3) (List.replicate 12 4) (List.replicate 16 0) [9] c4env [112]
    (by decide) (by decide) (by decide) (by decide) (by exact rfl)
    (by unfold yieldsPayload; decide) (by decide)
    (by decide) (by decide)
  exact h.1

/-- C7 witness: a 3-byte non-RIFF buffer is rejected as not-WAV and the
embed route propagates that error; a WAV declaring `audioFormat = 2` is
rejected as not-PCM. -/
theorem c7_wav_rejection_amended_witness :
    parseWavHeader [1, 2, 3] = .error .notWav ∧
    audioEmbedRoute jsonCodec trivPrims [] [] [1, 2, 3] [] (some cexFile) [] =
      .error .notWav ∧
    parseWavHeader c7badPcmWav = .error .notPcm := by
  have h := c7_wav_rejection_amended jsonCodec trivPrims [] [] [1, 2, 3] []
    (some cexFile) [] cexPacked (by exact rfl)
  have h1 := h.1 (by decide)
  have hbad := c7_wav_rejection_amended jsonCodec trivPrims [] [] c7badPcmWav []
    (some cexFile) [] cexPacked (by exact rfl)
  refine ⟨h1, h.2.2.2.2 .notWav h1, ?_⟩
  exact hbad.2.1 ⟨2, 1, 8000, 8000, 1, 8⟩ (some (44, 4)) (by decide) (by decide)
    (by exact rfl) (by decide)

/-- C1 witness: the text item `hi`, encrypted under a non-empty password,
round-trips through both a 22×22 image carrier and a 1152-sample WAV
carrier; concretely the extracted item is kind text, named `message.txt`,
mime `text/plain`, with the code points of `hi` intact (UTF-8 decode is
the identity on this valid ASCII content). -/
theorem c1_roundtrip_amended_witness :
    (imageEmbedRoute jsonCodec trivPrims c1salt c1iv c1rgba 22 22 c1text none [112] =
        .ok (writeBits imgOffset c1payload c1rgba) ∧
      imageExtractRoute jsonCodec trivPrims (writeBits imgOffset c1payload c1rgba)
          22 22 [112] =
        .ok (expectedOut (packItems c1text none))) ∧
    (audioEmbedRoute jsonCodec trivPrims c1salt c1iv c1wav c1text none [112] =
        .ok (writeBits (wavOffset 44 1) c1payload c1wav) ∧
      audioExtractRoute jsonCodec trivPrims
          (writeBits (wavOffset 44 1) c1payload c1wav) [112] =
        .ok (expectedOut (packItems c1text none))) ∧
    expectedOut (packItems c1text none) =
      [OutItem.text MESSAGE_TXT TEXT_PLAIN c1text] := by
  have hbytes : ∀ v ∈ c1rgba, v < 256 := by
    intro v hv
    simp only [c1rgba] at hv
    have := List.eq_of_mem_replicate hv
    omega
  have hwbytes : ∀ v ∈ c1wav, v < 256 := by
    intro v hv
    simp only [c1wav] at hv
    rcases List.mem_append.mp hv with h | h
    · exact (by decide : ∀ x ∈ simpleWavHeaderB 82 1152, x < 256) v h
    · have := List.eq_of_mem_replicate h
      omega
  have hrgba : c1rgba.length = 4 * (22 * 22) := by
    simp [c1rgba]
  have hwlen : (44 : Nat) + 1152 ≤ c1wav.length := by
    simp only [c1wav, List.length_append, simpleWavHeaderB_length, List.length_replicate]
    omega
  have hdlen : (List.replicate 1152 (0 : Nat)).length = 1152 := by simp
  have h := c1_roundtrip_amended jsonCodec trivPrims c1salt c1iv c1rgba 22 22 c1wav
    ⟨44, 1152, ⟨1, 1, 8000, 8000, 1, 8⟩⟩ c1text none [112] c1packed c1payload
    (by exact rfl)
    (by exact rfl)
    (by decide)
    (by exact rfl)
    (by decide)
    (fun _ => rfl) (fun _ => rfl) (fun _ => rfl) (fun _ => by decide)
    (fun _ => by exact rfl)
    hrgba hbytes (by decide)
    (parseWavHeader_simpleWavB 82 1152 (List.replicate 1152 0)
      (by decide) hdlen (by decide) (by decide))
    (Or.inl rfl)
    hwlen hwbytes (by decide)
    (parseWavHeader_stego_simpleWavB 82 1152 c1payload (List.replicate 1152 0)
      (by decide) hdlen (by decide) (by decide))
  exact ⟨h.1, h.2, by decide⟩
